import Mathlib

/-!
Verification of the Field Reconciliation & Enrichment Engine of the
`datafixer` repository.

The definitions below are a shallow embedding of the TypeScript sources:

* `src/backend/src/handlers/api/get-download-url.ts` (second document in the
  file: the `enrich-row` handler and its helper functions `enrichFromVies`,
  `enrichFromWebSearch`, `enrichFromRegistries`,
  `enrichFromCrossRowConsistency`, `filterNoOpChanges`, `mergeFieldChanges`),
* `src/backend/src/utils/vies.ts` (`parseVatId`, `validateVat`,
  `parseViesAddress`),
* `src/unnamed/part_000` (`registries.ts`: `searchBrreg`),
* `src/unnamed/part_002` (second document, `search.ts`: `searchWeb`,
  `searchCompanyWebsite`, `searchCompanyInfo`),
* `src/unnamed/part_003` (`dynamodb.ts`: `getRowsByCompanyName`,
  `normalizeCompanyKey`, `setCachedEnrichment`),
* `src/backend/src/utils/bedrock.ts` (`ENRICHMENT_CACHE_VERSION` and the
  AI adapter's output shape).

Network and database calls are modelled by explicit parameters: a fallible
external call is a value of type `Except Unit α` (`.error ()` standing for a
thrown exception, a timeout, or a non-success HTTP response, all of which the
TypeScript code treats alike at the observation points modelled here), and a
call that the source wraps in its own try/catch is translated with that
catch included.  JavaScript string-record values (`string | null | undefined`)
are modelled as `Option String`, where `none` covers both `null` and a
missing key; JavaScript truthiness of such a value is "present and not the
empty string".  Confidences are exact rationals; JavaScript number
arithmetic and comparison on them are modelled by the executable rational
operations `rle`, `rlt`, `rmul`, `radd`, `rdivNat`, `rmin` below, which are
proved equal to Mathlib's field operations on `ℚ` in the bridge section.
-/

/-! ## Executable rational arithmetic

The standard `Rat` instance operations are `@[irreducible]`, so the model
uses these cross-multiplication versions (a `Rat` denominator is always
positive).  They are proved equivalent to the Mathlib operations below. -/

/-- Executable `a ≤ b` on rationals (JavaScript `<=` on numbers). -/
def rle (a b : Rat) : Bool :=
  decide (a.num * (b.den : Int) ≤ b.num * (a.den : Int))

/-- Executable `a < b` on rationals (JavaScript `<` on numbers). -/
def rlt (a b : Rat) : Bool :=
  decide (a.num * (b.den : Int) < b.num * (a.den : Int))

/-- Executable rational multiplication. -/
def rmul (a b : Rat) : Rat := mkRat (a.num * b.num) (a.den * b.den)

/-- Executable rational addition. -/
def radd (a b : Rat) : Rat :=
  mkRat (a.num * (b.den : Int) + b.num * (a.den : Int)) (a.den * b.den)

/-- Executable division of two natural counts (JavaScript `count / total`). -/
def rdivNat (n d : Nat) : Rat := mkRat n d

/-- Executable `Math.min` on rationals. -/
def rmin (a b : Rat) : Rat := if rle a b then a else b

theorem rle_iff (a b : Rat) : rle a b = true ↔ a ≤ b := by
  rw [rle, decide_eq_true_iff]
  exact Rat.le_def.symm

theorem rlt_iff (a b : Rat) : rlt a b = true ↔ a < b := by
  rw [rlt, decide_eq_true_iff]
  exact Rat.lt_def.symm

theorem rmul_eq (a b : Rat) : rmul a b = a * b := by
  rw [rmul, Rat.mkRat_eq_divInt, Rat.divInt_eq_div]
  push_cast
  rw [← div_mul_div_comm, Rat.num_div_den, Rat.num_div_den]

theorem radd_eq (a b : Rat) : radd a b = a + b := by
  rw [radd, Rat.mkRat_eq_divInt, Rat.divInt_eq_div]
  push_cast
  conv_rhs => rw [← Rat.num_div_den a, ← Rat.num_div_den b]
  field_simp

theorem rdivNat_eq (n d : Nat) : rdivNat n d = (n : Rat) / d := by
  rw [rdivNat, Rat.mkRat_eq_divInt, Rat.divInt_eq_div]
  push_cast
  rfl

theorem rmin_eq (a b : Rat) : rmin a b = min a b := by
  rw [rmin, min_def]
  by_cases h : a ≤ b
  · rw [if_pos ((rle_iff a b).mpr h), if_pos h]
  · rw [if_neg (fun hc => h ((rle_iff a b).mp hc)), if_neg h]

/-! ## Executable string primitives

`String.toLower`, `String.trim`, `String.split` and `String.isPrefixOf`
from the core library are iterator-based and do not reduce in the kernel,
so the model uses these `List Char` based versions.  `Char.toLower` and
`Char.toUpper` only map the ASCII range, which matches JavaScript
`toLowerCase`/`toUpperCase` on the ASCII data handled here. -/

/-- JavaScript `s.toLowerCase()` (ASCII). -/
def jsToLower (s : String) : String := String.mk (s.toList.map Char.toLower)

/-- JavaScript `s.toUpperCase()` (ASCII). -/
def jsToUpper (s : String) : String := String.mk (s.toList.map Char.toUpper)

/-- JavaScript `s.trim()`. -/
def jsTrim (s : String) : String :=
  String.mk
    (((s.toList.dropWhile Char.isWhitespace).reverse.dropWhile
      Char.isWhitespace).reverse)

/-- Split a character list at every separator character; like JavaScript
`s.split(regex)` with a single-character alternation, empty segments are
kept. -/
def splitChars (p : Char → Bool) : List Char → List String
  | [] => [""]
  | c :: cs =>
    if p c then "" :: splitChars p cs
    else
      match splitChars p cs with
      | [] => [String.mk [c]]
      | s :: rest => (String.mk (c :: s.toList)) :: rest

/-- JavaScript `s.split(p)` for single-character separators. -/
def jsSplit (s : String) (p : Char → Bool) : List String :=
  splitChars p s.toList

/-- JavaScript `s.includes(sub)` (substring containment). -/
def strIncludes (s sub : String) : Bool :=
  (s.toList.tails).any (fun t => List.isPrefixOf sub.toList t)

/-- JavaScript `s.startsWith(pre)`. -/
def strStartsWith (s pre : String) : Bool :=
  List.isPrefixOf pre.toList s.toList

/-! ## Data model (`src/backend/src/types/index.ts`) -/

/-- Row lifecycle states (`RowStatus` in `types/index.ts`). -/
inductive RowStatus where
  | PENDING
  | VALIDATED
  | ENRICHED
  | NEEDS_REVIEW
  | ERROR
  deriving DecidableEq, Repr

/-- Field-change action kinds (`FieldChangeSchema.action`). -/
inductive ChangeAction where
  | ADDED
  | CORRECTED
  | VERIFIED
  deriving DecidableEq, Repr

/-- Provenance kinds (`EnrichmentSourceSchema.type`). -/
inductive SourceType where
  | OFFICIAL_WEBSITE
  | BUSINESS_REGISTRY
  | PUBLIC_DATABASE
  | SEARCH_RESULT
  | LLM_KNOWLEDGE
  deriving DecidableEq, Repr

/-- One provenance record attached to a field change
(`EnrichmentSourceSchema`). -/
structure EnrichmentSource where
  url : String
  type : SourceType
  retrievedAt : String
  snippet : Option String
  deriving DecidableEq, Repr

/-- A proposed change to one canonical field (`FieldChangeSchema`). -/
structure FieldChange where
  field : String
  originalValue : Option String
  proposedValue : String
  confidence : Rat
  reasoning : String
  sources : List EnrichmentSource
  action : ChangeAction
  deriving DecidableEq, Repr

/-- A validation issue attached to a row (`ValidationIssueSchema`); the
enrichment handler only tests the list for emptiness and forwards it. -/
structure ValidationIssue where
  field : String
  originalValue : Option String
  issueType : String
  severity : String
  message : String
  suggestedValue : Option String
  deriving DecidableEq, Repr

/-- An entity-name candidate stored on a row. -/
structure EntityCandidate where
  name : String
  confidence : Rat
  sources : List EnrichmentSource
  deriving DecidableEq, Repr

/-- A canonical record: JavaScript `Record<string, string | null>`,
modelled as an association list.  `none` stands for `null`; an absent key
behaves like `undefined`, which the code treats like `null` everywhere it
reads the record. -/
abbrev CanonData := List (String × Option String)

/-- A column mapping from the inferred schema (`ColumnMappingSchema`). -/
structure ColumnMapping where
  sourceColumn : String
  canonicalField : String
  confidence : Rat
  reasoning : Option String
  deriving DecidableEq, Repr

/-- A processed row (`ProcessedRowSchema`), restricted to the fields the
enrichment handler reads or writes (`originalData` is never touched by it
and is omitted). -/
structure ProcessedRow where
  rowIndex : Nat
  canonicalData : CanonData
  validationIssues : List ValidationIssue
  enrichmentResults : List FieldChange
  entityCandidates : List EntityCandidate
  status : RowStatus
  errorMessage : Option String
  deriving DecidableEq, Repr

/-! ## Canonical-record access -/

/-- Read a field of a canonical record (`row.canonicalData[field]`;
both a missing key and a `null` value give `none`). -/
def getField (d : CanonData) (f : String) : Option String :=
  match d.find? (fun p => decide (p.1 = f)) with
  | some p => p.2
  | none => none

/-- Write a field of a canonical record (`row.canonicalData[field] = v`). -/
def setField (d : CanonData) (f : String) (v : String) : CanonData :=
  if d.any (fun p => decide (p.1 = f)) then
    d.map (fun p => if p.1 = f then (p.1, some v) else p)
  else
    d ++ [(f, some v)]

/-- JavaScript truthiness of a `string | null | undefined` value. -/
def truthy (o : Option String) : Bool :=
  match o with
  | some s => decide (s ≠ "")
  | none => false

/-- `(s || '').trim().toLowerCase()` applied to a plain string. -/
def normStr (s : String) : String :=
  jsToLower (jsTrim s)

/-- `(v || '').trim().toLowerCase()` applied to a nullable value. -/
def normOpt (o : Option String) : String :=
  normStr (o.getD "")

/-! ## No-op filter, merge, and apply step
(enrich-row document of `get-download-url.ts`) -/

/-- The predicate of `filterNoOpChanges` (lines 484-500): keep a change
unless its proposed value normalizes to the field's non-empty current
value, or to the change's own non-empty recorded original value. -/
def keepChange (currentData : CanonData) (change : FieldChange) : Bool :=
  let currentValue := normOpt (getField currentData change.field)
  let proposedValue := normStr change.proposedValue
  let originalValue := normOpt change.originalValue
  if currentValue ≠ "" ∧ proposedValue = currentValue then false
  else if originalValue ≠ "" ∧ proposedValue = originalValue then false
  else true

/-- `filterNoOpChanges` (lines 480-501). -/
def filterNoOpChanges (changes : List FieldChange) (currentData : CanonData) :
    List FieldChange :=
  changes.filter (keepChange currentData)

/-- One `merged.set`-style insertion step of `mergeFieldChanges`: a
JavaScript `Map` keyed by `change.field` keeps the position of an existing
key on update and appends a new key at the end; the stored change is
overwritten only when the new confidence is strictly greater. -/
def insertMerged (m : List FieldChange) (c : FieldChange) : List FieldChange :=
  if m.any (fun e => decide (e.field = c.field)) then
    m.map (fun e =>
      if e.field = c.field then (if rlt e.confidence c.confidence then c else e)
      else e)
  else
    m ++ [c]

/-- `mergeFieldChanges` (lines 507-525): filter each change set through the
no-op filter against the current data, then fold every surviving change
into the field-keyed map, overwriting only on strictly greater confidence.
The caller passes the change sets in the fixed order VIES, registries,
cross-row, AI. -/
def mergeFieldChanges (currentData : CanonData)
    (changeSets : List (List FieldChange)) : List FieldChange :=
  changeSets.foldl
    (fun merged changes =>
      (filterNoOpChanges changes currentData).foldl insertMerged merged)
    []

/-- The write-back threshold (§4.4 of the spec, `0.7` in the source). -/
def writeBackThreshold : Rat := mkRat 7 10

/-- The apply step (lines 795-800): every change with confidence at least
0.7 is written into the canonical record; nothing else about the change is
consulted. -/
def applyChanges (d : CanonData) (changes : List FieldChange) : CanonData :=
  changes.foldl
    (fun acc c =>
      if rle writeBackThreshold c.confidence then
        setField acc c.field c.proposedValue
      else acc)
    d

section SanityChecks

example : rle writeBackThreshold (mkRat 95 100) = true := by decide

example : normStr "  Acme CORP " = "acme corp" := by decide

example : truthy (some "") = false := by decide

example : getField (setField [("a", some "1")] "b" "2") "b" = some "2" := by
  decide

example : jsSplit "a,b\nc" (fun c => c = ',' ∨ c = '\n') = ["a", "b", "c"] := by
  decide

example : strIncludes "acme corp" "me c" = true := by decide

end SanityChecks

/-! ## VIES VAT registry (`src/backend/src/utils/vies.ts`) -/

/-- EU country codes that support VIES (`VIES_COUNTRIES`). -/
def viesCountries : List String :=
  ["AT", "BE", "BG", "CY", "CZ", "DE", "DK", "EE", "EL", "ES",
   "FI", "FR", "HR", "HU", "IE", "IT", "LT", "LU", "LV", "MT",
   "NL", "PL", "PT", "RO", "SE", "SI", "SK", "XI"]

/-- A character of the class `[\s\-.]`. -/
def isVatSep (c : Char) : Bool :=
  c.isWhitespace || c = '-' || c = '.'

/-- An ASCII uppercase letter (`[A-Z]`). -/
def isUpperAlpha (c : Char) : Bool :=
  'A' ≤ c ∧ c ≤ 'Z'

/-- Match `^([A-Z]{2,3})[\s\-.]?(.+)$` against a character list, with the
regex's greedy backtracking: the prefix tries three letters before two, and
the optional separator is consumed only if at least one character remains
for the final group. -/
def vatPrefixSplit (l : List Char) : Option (List Char × List Char) :=
  let tryLen : Nat → Option (List Char × List Char) := fun k =>
    let pre := l.take k
    let rest := l.drop k
    if pre.length = k ∧ pre.all isUpperAlpha ∧ rest ≠ [] then
      some (pre,
        match rest with
        | c :: cs => if isVatSep c ∧ cs ≠ [] then cs else rest
        | [] => rest)
    else none
  (tryLen 3).orElse (fun _ => tryLen 2)

/-- `parseVatId` (vies.ts, lines 29-56): split a VAT id into country code
and number; reject `CHE` (Switzerland), map `GR` to `EL`, and reject
non-VIES countries. -/
def parseVatId (vatId : String) : Option (String × String) :=
  if vatId = "" then none
  else
    let cleaned := jsToUpper (jsTrim vatId)
    match vatPrefixSplit cleaned.toList with
    | none => none
    | some (pre, num) =>
      let countryCode := String.mk pre
      let number := String.mk (num.filter (fun c => ¬ isVatSep c))
      if countryCode = "CHE" then none
      else
        let cc := if countryCode = "GR" then "EL" else countryCode
        if viesCountries.contains cc then some (cc, number) else none

/-- The raw JSON body of a successful VIES REST response. -/
structure ViesRaw where
  isValid : Bool
  countryCode : String
  vatNumber : String
  name : Option String
  address : Option String
  requestDate : String
  deriving DecidableEq, Repr

/-- The value `validateVat` resolves with (`ViesResult` in vies.ts). -/
structure ViesResult where
  valid : Bool
  countryCode : String
  vatNumber : String
  name : Option String
  address : Option String
  requestDate : Option String
  deriving DecidableEq, Repr

/-- `validateVat` (vies.ts, lines 62-116).  The `fetch` parameter is the
outcome of the HTTP call; `.error ()` covers a thrown exception, the 10s
timeout, and a non-OK status, each of which makes the source return
`null`.  `EL` is mapped back to `GR` and the placeholder `---` (or an
empty string, which is falsy) clears the name and address. -/
def validateVat (vatId : String) (fetch : Except Unit ViesRaw) :
    Option ViesResult :=
  match parseVatId vatId with
  | none => none
  | some _ =>
    match fetch with
    | .error _ => none
    | .ok d =>
      some
        { valid := d.isValid
          countryCode := if d.countryCode = "EL" then "GR" else d.countryCode
          vatNumber := d.vatNumber
          name :=
            match d.name with
            | some n => if n ≠ "" ∧ n ≠ "---" then some n else none
            | none => none
          address :=
            match d.address with
            | some a => if a ≠ "" ∧ a ≠ "---" then some a else none
            | none => none
          requestDate := some d.requestDate }

/-- The result record of `parseViesAddress`. -/
structure ParsedAddress where
  streetAddress : Option String
  postalCode : Option String
  city : Option String
  deriving DecidableEq, Repr

/-- Match `^(\d{4,6})\s+(.+)$` on a trimmed line: a run of four to six
digits, at least one whitespace character, then a non-empty remainder. -/
def matchPostalCity (s : String) : Option (String × String) :=
  let l := s.toList
  let digits := l.takeWhile Char.isDigit
  let rest := l.drop digits.length
  if 4 ≤ digits.length ∧ digits.length ≤ 6 then
    let ws := rest.takeWhile Char.isWhitespace
    let rest2 := rest.drop ws.length
    if ws ≠ [] ∧ rest2 ≠ [] then some (String.mk digits, String.mk rest2)
    else none
  else none

/-- One backtracking configuration of the UK postcode pattern
`^([A-Z]{1,2}\d{1,2}\s?\d[A-Z]{2})\s+(.+)$`: `a` letters, `d` digits and
`sp` spaces, then one digit and two letters, then mandatory whitespace and
a non-empty remainder. -/
def tryUkCfg (l : List Char) (a d sp : Nat) : Option (String × String) :=
  let letters := l.take a
  let afterLetters := l.drop a
  let digits := afterLetters.take d
  let afterDigits := afterLetters.drop d
  let spaces := afterDigits.take sp
  let afterSpaces := afterDigits.drop sp
  match afterSpaces with
  | c1 :: c2 :: c3 :: rest =>
    if letters.length = a ∧ letters.all isUpperAlpha ∧
        digits.length = d ∧ digits.all Char.isDigit ∧
        spaces.length = sp ∧ spaces.all Char.isWhitespace ∧
        c1.isDigit ∧ isUpperAlpha c2 ∧ isUpperAlpha c3 then
      let ws := rest.takeWhile Char.isWhitespace
      let rest2 := rest.drop ws.length
      if ws ≠ [] ∧ rest2 ≠ [] then
        some (String.mk (letters ++ digits ++ spaces ++ [c1, c2, c3]),
          String.mk rest2)
      else none
    else none
  | _ => none

/-- Match the UK postcode alternative with the regex's greedy backtracking
order over the three bounded quantifiers. -/
def matchUkPostal (s : String) : Option (String × String) :=
  let l := s.toList
  (tryUkCfg l 2 2 1).orElse fun _ =>
    (tryUkCfg l 2 2 0).orElse fun _ =>
      (tryUkCfg l 2 1 1).orElse fun _ =>
        (tryUkCfg l 2 1 0).orElse fun _ =>
          (tryUkCfg l 1 2 1).orElse fun _ =>
            (tryUkCfg l 1 2 0).orElse fun _ =>
              (tryUkCfg l 1 1 1).orElse fun _ => tryUkCfg l 1 1 0

/-- `parseViesAddress` (vies.ts, lines 122-157): split the address on
newlines and commas, trim and drop empty lines, and read postal code and
city out of the last line when it matches one of the two patterns. -/
def parseViesAddress (address : String) : ParsedAddress :=
  if address = "" then ⟨none, none, none⟩
  else
    let lines :=
      ((jsSplit address (fun c => c = '\n' ∨ c = ',')).map jsTrim).filter
        (fun s => decide (s ≠ ""))
    match lines with
    | [] => ⟨none, none, none⟩
    | _ :: _ =>
      let lastLine := lines.getLast?.getD ""
      match (matchPostalCity lastLine).orElse (fun _ => matchUkPostal lastLine) with
      | some (pc, city) =>
        { streetAddress :=
            if lines.length > 1 then
              some (String.intercalate ", " lines.dropLast)
            else none
          postalCode := some pc
          city := some city }
      | none =>
        if lines.length ≥ 2 then
          ⟨some (lines.head?.getD ""), none, some lastLine⟩
        else
          ⟨none, none, some lastLine⟩

/-- The VIES source URL constant used in the handler. -/
def viesUrl : String := "https://ec.europa.eu/taxation_customs/vies/"

/-- The VAT id `enrichFromVies` works with (lines 86-90): the row's
`vat_id` if truthy, else a truthy `registration_id` that parses as an EU
VAT id. -/
def viesVatCandidate (cd : CanonData) : Option String :=
  if truthy (getField cd "vat_id") then getField cd "vat_id"
  else
    match getField cd "registration_id" with
    | some r => if r ≠ "" ∧ (parseVatId r).isSome then some r else none
    | none => none

/-- `enrichFromVies` (enrich-row document, lines 83-194): validate the
row's VAT id (or a registration id that parses as one) and derive field
changes: a `VERIFIED` flag on an invalid VAT, and `ADDED` proposals for a
missing company name, country and address parts. -/
def enrichFromVies (now : String) (row : ProcessedRow)
    (fetch : Except Unit ViesRaw) : List FieldChange :=
  let cd := row.canonicalData
  match viesVatCandidate cd with
  | none => []
  | some vid =>
    match validateVat vid fetch with
    | none => []
    | some vr =>
      let validWord := if vr.valid then "Valid" else "Invalid"
      let viesSource : EnrichmentSource :=
        { url := viesUrl
          type := .PUBLIC_DATABASE
          retrievedAt := now
          snippet :=
            some s!"VIES validation: {validWord} VAT {vr.countryCode}{vr.vatNumber}" }
      let invalidChanges : List FieldChange :=
        if ¬ vr.valid then
          [{ field := "vat_id"
             originalValue := some vid
             proposedValue := vid
             confidence := mkRat 95 100
             reasoning := "VAT number is registered as INVALID in the EU VIES system"
             sources := [viesSource]
             action := .VERIFIED }]
        else []
      let nameChanges : List FieldChange :=
        match vr.name with
        | some n =>
          if ¬ truthy (getField cd "company_name") then
            [{ field := "company_name"
               originalValue := none
               proposedValue := n
               confidence := mkRat 95 100
               reasoning := "Company name from EU VIES VAT registry"
               sources := [viesSource]
               action := .ADDED }]
          else []
        | none => []
      let countryChanges : List FieldChange :=
        if vr.countryCode ≠ "" ∧ ¬ truthy (getField cd "country") then
          [{ field := "country"
             originalValue := none
             proposedValue := vr.countryCode
             confidence := mkRat 98 100
             reasoning := "Country derived from VAT registration in VIES"
             sources := [viesSource]
             action := .ADDED }]
        else []
      let addressChanges : List FieldChange :=
        match vr.address with
        | some addr =>
          if addr ≠ "" then
            let parsed := parseViesAddress addr
            (if truthy parsed.streetAddress ∧
                ¬ truthy (getField cd "address_line1") then
              [{ field := "address_line1"
                 originalValue := none
                 proposedValue := parsed.streetAddress.getD ""
                 confidence := mkRat 90 100
                 reasoning := "Address from EU VIES VAT registry"
                 sources := [viesSource]
                 action := .ADDED }]
            else []) ++
            (if truthy parsed.city ∧ ¬ truthy (getField cd "city") then
              [{ field := "city"
                 originalValue := none
                 proposedValue := parsed.city.getD ""
                 confidence := mkRat 90 100
                 reasoning := "City from EU VIES VAT registry"
                 sources := [viesSource]
                 action := .ADDED }]
            else []) ++
            (if truthy parsed.postalCode ∧
                ¬ truthy (getField cd "postal_code") then
              [{ field := "postal_code"
                 originalValue := none
                 proposedValue := parsed.postalCode.getD ""
                 confidence := mkRat 90 100
                 reasoning := "Postal code from EU VIES VAT registry"
                 sources := [viesSource]
                 action := .ADDED }]
            else [])
          else []
        | none => []
      invalidChanges ++ nameChanges ++ countryChanges ++ addressChanges

/-! ## Business registries (`src/unnamed/part_000`, `registries.ts`) -/

/-- The standardized registry lookup result (`RegistryResult`). -/
structure RegistryResult where
  source : String
  sourceUrl : String
  companyName : String
  registrationId : Option String
  vatId : Option String
  address : Option String
  postalCode : Option String
  city : Option String
  country : String
  industry : Option String
  website : Option String
  phone : Option String
  email : Option String
  status : Option String
  confidence : Rat
  deriving DecidableEq, Repr

/-- A business or postal address in a Brreg unit. -/
structure BrregAddress where
  adresse : Option (List String)
  postnummer : Option String
  poststed : Option String
  land : Option String
  deriving DecidableEq, Repr

/-- One unit of a Brreg search response (`BrregUnit`). -/
structure BrregUnit where
  organisasjonsnummer : String
  navn : String
  forretningsadresse : Option BrregAddress
  postadresse : Option BrregAddress
  naeringskode1Beskrivelse : Option String
  hjemmeside : Option String
  registrertIMvaregisteret : Option Bool
  deriving DecidableEq, Repr

/-- `searchBrreg` (registries.ts / part_000, lines 53-99).  The whole body
is inside a try/catch that returns `[]`; a non-OK response also returns
`[]`, so `.error ()` covers both.  The confidence is 0.95 on an exact
case-insensitive name match, 0.80 on substring containment either way, and
0.60 otherwise. -/
def searchBrreg (companyName : String)
    (fetch : Except Unit (List BrregUnit)) : List RegistryResult :=
  match fetch with
  | .error _ => []
  | .ok units =>
    units.map (fun unit =>
      let addr :=
        match unit.forretningsadresse with
        | some a => some a
        | none => unit.postadresse
      let nameLower := jsToLower companyName
      let unitLower := jsToLower unit.navn
      let confidence : Rat :=
        if unitLower = nameLower then mkRat 95 100
        else if strIncludes unitLower nameLower ∨
            strIncludes nameLower unitLower then mkRat 80 100
        else mkRat 60 100
      { source := "BRREG"
        sourceUrl :=
          "https://data.brreg.no/enhetsregisteret/oppslag/enheter/" ++
            unit.organisasjonsnummer
        companyName := unit.navn
        registrationId := some unit.organisasjonsnummer
        vatId :=
          if unit.registrertIMvaregisteret = some true then
            some ("NO" ++ unit.organisasjonsnummer ++ "MVA")
          else none
        address := addr.bind (fun a => a.adresse.map (String.intercalate ", "))
        postalCode := addr.bind (fun a => a.postnummer)
        city := addr.bind (fun a => a.poststed)
        country := "NO"
        industry := unit.naeringskode1Beskrivelse
        website :=
          match unit.hjemmeside with
          | some w => if w ≠ "" then some w else none
          | none => none
        phone := none
        email := none
        status := none
        confidence := confidence })

/-- `enrichFromRegistries` (enrich-row document, lines 232-399), from the
point where the `searchRegistries` network results are available; the
`results` parameter is that call's return value (already sorted by
descending confidence by `searchRegistries`).  The best match is used only
above the absolute floor 0.6, and each still-missing canonical field is
proposed with the match confidence, discounted for derived fields. -/
def enrichFromRegistries (now : String) (row : ProcessedRow)
    (results : List RegistryResult) : List FieldChange :=
  let cd := row.canonicalData
  if ¬ truthy (getField cd "company_name") then []
  else
    match results with
    | [] => []
    | best :: _ =>
      if rlt best.confidence (mkRat 60 100) then []
      else
        let regIdStr :=
          match best.registrationId with
          | some r => if r ≠ "" then r else "N/A"
          | none => "N/A"
        let registrySource : EnrichmentSource :=
          { url := best.sourceUrl
            type := .BUSINESS_REGISTRY
            retrievedAt := now
            snippet := some s!"{best.source}: {best.companyName} ({regIdStr})" }
        let mk1 : Bool → String → String → Rat → String → List FieldChange :=
          fun cond f v conf why =>
            if cond then
              [{ field := f
                 originalValue := none
                 proposedValue := v
                 confidence := conf
                 reasoning := why
                 sources := [registrySource]
                 action := .ADDED }]
            else []
        mk1 (truthy best.vatId ∧ ¬ truthy (getField cd "vat_id"))
          "vat_id" (best.vatId.getD "") best.confidence
          s!"VAT ID from {best.source} company register" ++
        mk1 (truthy best.registrationId ∧
            ¬ truthy (getField cd "registration_id"))
          "registration_id" (best.registrationId.getD "") best.confidence
          s!"Registration number from {best.source} company register" ++
        mk1 (truthy best.address ∧ ¬ truthy (getField cd "address_line1"))
          "address_line1" (best.address.getD "")
          (rmul best.confidence (mkRat 9 10))
          s!"Registered address from {best.source}" ++
        mk1 (truthy best.postalCode ∧ ¬ truthy (getField cd "postal_code"))
          "postal_code" (best.postalCode.getD "")
          (rmul best.confidence (mkRat 9 10))
          s!"Postal code from {best.source} registered address" ++
        mk1 (truthy best.city ∧ ¬ truthy (getField cd "city"))
          "city" (best.city.getD "") (rmul best.confidence (mkRat 9 10))
          s!"City from {best.source} registered address" ++
        mk1 (best.country ≠ "" ∧ ¬ truthy (getField cd "country"))
          "country" best.country best.confidence
          s!"Country from {best.source} jurisdiction" ++
        mk1 (truthy best.industry ∧ ¬ truthy (getField cd "industry"))
          "industry" (best.industry.getD "")
          (rmul best.confidence (mkRat 85 100))
          s!"Industry classification from {best.source}" ++
        mk1 (truthy best.website ∧ ¬ truthy (getField cd "website"))
          "website"
          (if strStartsWith (best.website.getD "") "http" then
            best.website.getD ""
          else "https://" ++ best.website.getD "")
          (rmul best.confidence (mkRat 85 100))
          s!"Website from {best.source} register" ++
        mk1 (truthy best.phone ∧ ¬ truthy (getField cd "phone"))
          "phone" (best.phone.getD "") (rmul best.confidence (mkRat 8 10))
          s!"Phone from {best.source} register" ++
        mk1 (truthy best.email ∧ ¬ truthy (getField cd "email"))
          "email" (best.email.getD "") (rmul best.confidence (mkRat 8 10))
          s!"Email from {best.source} register"

/-! ## Row store helpers (`src/unnamed/part_003`, `dynamodb.ts`) -/

/-- The name normalization used by `getRowsByCompanyName` and
`normalizeCompanyKey`: lower-case, keep only `[a-z0-9]`, then trim
(the trim is a no-op after the character filter, kept for fidelity). -/
def normalizeName (s : String) : String :=
  jsTrim (String.mk ((jsToLower s).toList.filter
    (fun c => ('a' ≤ c ∧ c ≤ 'z') ∨ c.isDigit)))

/-- `getRowsByCompanyName` (part_003, lines 250-283), with the paged
DynamoDB query for the job's rows supplied as `jobRows`: keep the rows
whose normalized company name equals the normalized argument. -/
def getRowsByCompanyName (jobRows : List ProcessedRow)
    (companyName : String) : List ProcessedRow :=
  let normalizedName := normalizeName companyName
  jobRows.filter (fun row =>
    decide (normalizeName ((getField row.canonicalData "company_name").getD "")
      = normalizedName))

/-- `normalizeCompanyKey` (part_003, lines 321-327). -/
def normalizeCompanyKey (companyName : String) (country : Option String) :
    String :=
  let normalized := normalizeName companyName
  match country with
  | some c => normalized ++ ":" ++ jsToLower c
  | none => normalized

/-! ## Cross-row consistency adapter
(enrich-row document, lines 405-474) -/

/-- The fixed list of canonical fields the sibling-row adapter checks
(`fieldsToCheck`, lines 420-423).  Note that `company_name`,
`address_line2` and `registration_id` are not in it. -/
def fieldsToCheck : List String :=
  ["website", "email", "phone", "city", "state_province",
   "postal_code", "country", "address_line1", "vat_id", "industry"]

/-- One `candidateValues[value] = (candidateValues[value] || 0) + 1` step:
a JavaScript object used as a counter keeps the first-insertion order of
its string keys. -/
def bumpCount (acc : List (String × Nat)) (v : String) :
    List (String × Nat) :=
  if acc.any (fun p => decide (p.1 = v)) then
    acc.map (fun p => if p.1 = v then (p.1, p.2 + 1) else p)
  else acc ++ [(v, 1)]

/-- Tabulate the non-empty values of one field over the sibling rows, in
first-seen key order (lines 430-436). -/
def tallyField (rows : List ProcessedRow) (f : String) :
    List (String × Nat) :=
  rows.foldl (fun acc r =>
    match getField r.canonicalData f with
    | some v => if v ≠ "" then bumpCount acc v else acc
    | none => acc) []

/-- `entries.sort((a, b) => b[1] - a[1]); entries[0]`: JavaScript sort is
stable, so the chosen entry is the first one with the maximal count, which
is the fold that keeps the current entry unless a later one is strictly
greater (lines 439-443). -/
def pickBestEntry : List (String × Nat) → Option (String × Nat)
  | [] => none
  | e :: es => some (es.foldl (fun a x => if x.2 > a.2 then x else a) e)

/-- `enrichFromCrossRowConsistency` (lines 405-474).  The `jobRows`
parameter is the outcome of the DynamoDB query inside
`getRowsByCompanyName`; that call is *not* wrapped in any try/catch in the
source, so a query failure propagates out of the adapter (hence the
`Except` result), but it is only issued when the row has a truthy company
name. -/
def enrichFromCrossRowConsistency (now : String)
    (jobRows : Except Unit (List ProcessedRow)) (row : ProcessedRow) :
    Except Unit (List FieldChange) :=
  let cd := row.canonicalData
  let companyName := getField cd "company_name"
  if ¬ truthy companyName then .ok []
  else
    match jobRows with
    | .error e => .error e
    | .ok rows =>
      let siblingRows := getRowsByCompanyName rows (companyName.getD "")
      let otherRows := siblingRows.filter
        (fun r => decide (r.rowIndex ≠ row.rowIndex))
      if otherRows.isEmpty then .ok []
      else
        .ok (fieldsToCheck.filterMap (fun f =>
          if truthy (getField cd f) then none
          else
            match pickBestEntry (tallyField otherRows f) with
            | none => none
            | some (bestValue, count) =>
              let confidence :=
                rmin (mkRat 85 100)
                  (radd (mkRat 6 10)
                    (rmul (rdivNat count otherRows.length) (mkRat 25 100)))
              let cn := companyName.getD ""
              some
                { field := f
                  originalValue := none
                  proposedValue := bestValue
                  confidence := confidence
                  reasoning :=
                    s!"Filled from {count} other row(s) for the same company \"{cn}\""
                  sources :=
                    [{ url := "N/A"
                       type := .LLM_KNOWLEDGE
                       retrievedAt := now
                       snippet :=
                         some s!"Cross-row consistency: value found in {count} sibling row(s)" }]
                  action := .ADDED }))

/-! ## Web search adapter (`src/backend/src/utils/search.ts`, the second
document of `src/unnamed/part_002`) -/

/-- One web search hit (`SearchResult` in search.ts, lines 114-118). -/
structure SearchResult where
  title : String
  url : String
  snippet : String
  deriving DecidableEq, Repr

/-- One raw result of the Tavily API response (`data.results` entry,
search.ts lines 155-161); `content` is read with optional chaining, so it
is modelled as optional. -/
structure TavilyResult where
  title : String
  url : String
  content : Option String
  deriving DecidableEq, Repr

/-- One query's result set, as assembled by `enrichFromWebSearch`. -/
structure WebQueryResults where
  query : String
  results : List SearchResult
  deriving DecidableEq, Repr

/-- `searchWeb` (search.ts, lines 125-175).  The `fetch` parameter is the
outcome of the Tavily HTTP call; `.error ()` covers a missing
`SEARCH_API_KEY` (the call is skipped), a thrown exception, the 15s
timeout, and a non-OK response, each of which makes the function return
`[]`.  On success each result's snippet is
`r.content?.substring(0, 500) || ''`. -/
def searchWeb (query : String)
    (fetch : Except Unit (List TavilyResult)) : List SearchResult :=
  match fetch with
  | .error _ => []
  | .ok results =>
    results.map (fun r =>
      { title := r.title
        url := r.url
        snippet :=
          match r.content with
          | some c => String.mk (c.toList.take 500)
          | none => "" })

/-- `searchCompanyWebsite` (search.ts, lines 180-186): delegate to
`searchWeb` with the query `"{companyName}{location} official website"`,
where `location` is `" {country}"` for a truthy country argument. -/
def searchCompanyWebsite (companyName : String) (country : Option String)
    (fetch : Except Unit (List TavilyResult)) : List SearchResult :=
  let location :=
    match country with
    | some c => if c ≠ "" then " " ++ c else ""
    | none => ""
  searchWeb (companyName ++ location ++ " official website") fetch

/-- `searchCompanyInfo` (search.ts, lines 191-197): delegate to
`searchWeb` with the query
`"{companyName}{location} company information address"`. -/
def searchCompanyInfo (companyName : String) (country : Option String)
    (fetch : Except Unit (List TavilyResult)) : List SearchResult :=
  let location :=
    match country with
    | some c => if c ≠ "" then " " ++ c else ""
    | none => ""
  searchWeb (companyName ++ location ++ " company information address") fetch

/-- `enrichFromWebSearch` (enrich-row document, lines 200-226): collect the
two query result sets (both search functions are called with
`country || undefined`); the adapter returns snippets only and proposes no
field changes. -/
def enrichFromWebSearch (companyName : String) (country : Option String)
    (websiteFetch infoFetch : Except Unit (List TavilyResult)) :
    List WebQueryResults :=
  let countryArg :=
    match country with
    | some c => if c ≠ "" then some c else none
    | none => none
  let websiteResults := searchCompanyWebsite companyName countryArg websiteFetch
  let infoResults := searchCompanyInfo companyName countryArg infoFetch
  let countryStr := country.getD ""
  (if websiteResults.length > 0 then
    [{ query := s!"{companyName} official website", results := websiteResults }]
  else []) ++
  (if infoResults.length > 0 then
    [{ query := s!"{companyName} {countryStr} company information"
       results := infoResults }]
  else [])

/-! ## Language-model adapter output (`src/backend/src/utils/bedrock.ts`) -/

/-- An entity candidate as returned by the AI adapter. -/
structure AiCandidate where
  name : String
  confidence : Rat
  matchReason : String
  deriving DecidableEq, Repr

/-- The parsed JSON payload of the AI enrichment call
(`EnrichmentOutput` in bedrock.ts).  A JSON-parse failure inside
`enrichRow` is a thrown exception, hence the call is modelled as
`Except Unit EnrichmentOutput` at its call site. -/
structure EnrichmentOutput where
  fieldChanges : List FieldChange
  entityCandidates : List AiCandidate
  needsManualReview : Bool
  reviewReason : Option String
  deriving DecidableEq, Repr

/-- `ENRICHMENT_CACHE_VERSION` (bedrock.ts, line 21). -/
def ENRICHMENT_CACHE_VERSION : String := "v10-vies-address-master"

/-- The cache-entry sort key prefix used by the enrich-row handler
(line 671). -/
def cacheSourceType : String := "ENRICHMENT#" ++ ENRICHMENT_CACHE_VERSION

/-- An entity cache entry (`EnrichmentCacheEntry` in part_003, with `data`
specialized to the `fieldChanges` list the enrich-row handler stores).
`setCachedEnrichment` overrides the `ttl` of the passed entry with
"now + 7 days" (part_003, line 309); the handler passes the same formula
(line 771), so the stored `ttl` is `nowSec + 7 * 24 * 60 * 60`. -/
structure CacheEntry where
  normalizedKey : String
  sourceType : String
  data : List FieldChange
  retrievedAt : String
  ttl : Int
  deriving DecidableEq, Repr

/-! ## The per-row orchestrator
(enrich-row document `handler`, lines 527-864)

All external calls a single row processing makes are collected in
`EnrichEnv`; each field is the outcome of the corresponding call. -/

/-- The external-world outcomes seen while processing one row. -/
structure EnrichEnv where
  /-- `new Date().toISOString()` (all timestamps of one row run). -/
  now : String
  /-- `Math.floor(Date.now() / 1000)`. -/
  nowSec : Int
  /-- VIES HTTP call made during name pre-resolution. -/
  viesPreFetch : Except Unit ViesRaw
  /-- `searchRegistriesByTaxId` result: every registry lookup inside it is
  individually wrapped in try/catch in part_000, so it cannot throw. -/
  regPre : Option RegistryResult
  /-- `getCachedEnrichment`: a DynamoDB read that can throw (its exception
  reaches the outer per-row catch). -/
  cacheLookup : Except Unit (Option (List FieldChange))
  /-- VIES HTTP call made by `enrichFromVies`. -/
  viesFetch : Except Unit ViesRaw
  /-- `searchRegistries` result: every registry search inside it is
  individually wrapped in try/catch in part_000, so it cannot throw. -/
  registryResults : List RegistryResult
  /-- The DynamoDB query inside `getRowsByCompanyName`; it is not wrapped
  anywhere, so its exception escapes `enrichFromCrossRowConsistency`. -/
  jobRows : Except Unit (List ProcessedRow)
  /-- Tavily web search call outcomes (consumed as AI context only). -/
  websiteHits : Except Unit (List TavilyResult)
  infoHits : Except Unit (List TavilyResult)
  /-- `enrichRowAI`: can throw (model/network/JSON-parse failure), wrapped
  at its call site. -/
  ai : Except Unit EnrichmentOutput
  /-- `setCachedEnrichment`: a DynamoDB write that can throw inside the
  fan-out try block. -/
  cacheWrite : Except Unit Unit
  /-- `saveRow`: a DynamoDB write that can throw (its exception reaches
  the outer per-row catch). -/
  save : Except Unit Unit
  deriving Repr

/-- The fallback error message of the outer per-row catch (line 834; the
actual thrown error's message is used when available, which the claims
never inspect). -/
def unknownErrText : String := "Unknown enrichment error"

/-- The message set when the fan-out try block fails (line 778). -/
def reviewMsgText : String := "Enrichment failed - manual review required"

/-- Name pre-resolution (lines 587-663): when the company name is missing
but a tax or registration id is present, resolve the name via VIES and a
registry id lookup before the fan-out; returns the updated canonical data
and the pre-resolution change list. -/
def preResolution (env : EnrichEnv) (row : ProcessedRow) :
    CanonData × List FieldChange :=
  let cd := row.canonicalData
  if truthy (getField cd "company_name") then (cd, [])
  else
    let vatId := if truthy (getField cd "vat_id") then
      getField cd "vat_id" else none
    let regId := if truthy (getField cd "registration_id") then
      getField cd "registration_id" else none
    if vatId.isNone ∧ regId.isNone then (cd, [])
    else
      let viesCandidate : Option String :=
        match vatId with
        | some v => some v
        | none =>
          match regId with
          | some r => if (parseVatId r).isSome then some r else none
          | none => none
      let viesResult : Option ViesResult :=
        match viesCandidate with
        | some v => validateVat v env.viesPreFetch
        | none => none
      let viesName : Option String := viesResult.bind (fun vr => vr.name)
      if truthy viesName then
        let n := viesName.getD ""
        let vr := viesResult.getD
          ⟨false, "", "", none, none, none⟩
        let vatIdStr := vatId.getD "undefined"
        let change : FieldChange :=
          { field := "company_name"
            originalValue := none
            proposedValue := n
            confidence := mkRat 95 100
            reasoning :=
              s!"Company name resolved from VAT ID {vatIdStr} via EU VIES registry"
            sources :=
              [{ url := viesUrl
                 type := .PUBLIC_DATABASE
                 retrievedAt := env.now
                 snippet := some s!"VIES: {n} ({vr.countryCode}{vr.vatNumber})" }]
            action := .ADDED }
        (if n ≠ "" then setField cd "company_name" n else cd, [change])
      else
        match env.regPre with
        | none => (cd, [])
        | some rr =>
          let idKind := if vatId.isSome then "tax ID" else "registration ID"
          let regIdStr :=
            match rr.registrationId with
            | some r => if r ≠ "" then r else "N/A"
            | none => "N/A"
          let regSource : EnrichmentSource :=
            { url := rr.sourceUrl
              type := .BUSINESS_REGISTRY
              retrievedAt := env.now
              snippet := some s!"{rr.source}: {rr.companyName} ({regIdStr})" }
          let nameChange : FieldChange :=
            { field := "company_name"
              originalValue := none
              proposedValue := rr.companyName
              confidence := rr.confidence
              reasoning :=
                s!"Company name resolved from {idKind} via {rr.source} registry"
              sources := [regSource]
              action := .ADDED }
          let extra : Bool → String → String → Rat → String → List FieldChange :=
            fun cond f v conf why =>
              if cond then
                [{ field := f
                   originalValue := none
                   proposedValue := v
                   confidence := conf
                   reasoning := why
                   sources :=
                     [{ url := rr.sourceUrl
                        type := .BUSINESS_REGISTRY
                        retrievedAt := env.now
                        snippet := some v }]
                   action := .ADDED }]
              else []
          let changes :=
            [nameChange] ++
            extra (truthy rr.address ∧ ¬ truthy (getField cd "address_line1"))
              "address_line1" (rr.address.getD "")
              (rmul rr.confidence (mkRat 9 10))
              s!"Address from {rr.source} ID lookup" ++
            extra (truthy rr.city ∧ ¬ truthy (getField cd "city"))
              "city" (rr.city.getD "") (rmul rr.confidence (mkRat 9 10))
              s!"City from {rr.source} ID lookup" ++
            extra (rr.country ≠ "" ∧ ¬ truthy (getField cd "country"))
              "country" rr.country rr.confidence
              s!"Country from {rr.source} ID lookup" ++
            extra (truthy rr.postalCode ∧ ¬ truthy (getField cd "postal_code"))
              "postal_code" (rr.postalCode.getD "")
              (rmul rr.confidence (mkRat 9 10))
              s!"Postal code from {rr.source} ID lookup"
          (if rr.companyName ≠ "" then
            setField cd "company_name" rr.companyName
          else cd, changes)

/-- The AI adapter call site (lines 700-727): a failure is caught locally
and degrades to no changes, no candidate update and no review flag. -/
def aiStep (ai : Except Unit EnrichmentOutput)
    (cands : List EntityCandidate) :
    List FieldChange × List EntityCandidate × Bool :=
  match ai with
  | .error _ => ([], cands, false)
  | .ok out =>
    let newCands :=
      if out.entityCandidates.length > 0 then
        (out.entityCandidates.take 3).map
          (fun c => { name := c.name, confidence := c.confidence, sources := [] })
      else cands
    (out.fieldChanges, newCands, out.needsManualReview)

/-- The outcome of the fan-out try block (lines 685-780). -/
structure TryOut where
  results : List FieldChange
  status : RowStatus
  candidates : List EntityCandidate
  errorMessage : Option String
  cachePut : Option CacheEntry
  deriving Repr

/-- The fan-out try block (lines 685-780) on a cache miss: run the four
sources, merge, scope to the mapped canonical fields, and cache a
non-empty scoped result.  An exception escaping the sibling-row lookup (or
the cache write) is caught by the block's catch, which sets the row to
NEEDS_REVIEW with an error message; results assigned before the failing
statement are kept, later ones are not. -/
def fanOutTry (env : EnrichEnv) (mapped : List String) (cacheKey : String)
    (row1 : ProcessedRow) : TryOut :=
  match enrichFromCrossRowConsistency env.now env.jobRows row1 with
  | .error _ =>
    { results := []
      status := .NEEDS_REVIEW
      candidates := row1.entityCandidates
      errorMessage := some reviewMsgText
      cachePut := none }
  | .ok crossRowChanges =>
    let viesChanges := enrichFromVies env.now row1 env.viesFetch
    let registryChanges := enrichFromRegistries env.now row1 env.registryResults
    let companyName := (getField row1.canonicalData "company_name").getD ""
    let country :=
      if truthy (getField row1.canonicalData "country") then
        getField row1.canonicalData "country"
      else none
    let _webSearchResults :=
      enrichFromWebSearch companyName country env.websiteHits env.infoHits
    let (aiChanges, candidates, review) := aiStep env.ai row1.entityCandidates
    let status1 := if review then RowStatus.NEEDS_REVIEW else row1.status
    let merged := mergeFieldChanges row1.canonicalData
      [viesChanges, registryChanges, crossRowChanges, aiChanges]
    let scopedChanges := merged.filter (fun c => decide (c.field ∈ mapped))
    if cacheKey ≠ "" ∧ scopedChanges ≠ [] then
      match env.cacheWrite with
      | .error _ =>
        { results := scopedChanges
          status := .NEEDS_REVIEW
          candidates := candidates
          errorMessage := some reviewMsgText
          cachePut := none }
      | .ok _ =>
        { results := scopedChanges
          status := status1
          candidates := candidates
          errorMessage := row1.errorMessage
          cachePut :=
            some
              { normalizedKey := cacheKey
                sourceType := cacheSourceType
                data := scopedChanges
                retrievedAt := env.now
                ttl := env.nowSec + 7 * 24 * 60 * 60 } }
    else
      { results := scopedChanges
        status := status1
        candidates := candidates
        errorMessage := row1.errorMessage
        cachePut := none }

/-- The outcome of processing one row: the row as saved (or left) in the
row store, and the cache entry written, if any. -/
structure RowOutcome where
  row : ProcessedRow
  cachePut : Option CacheEntry
  deriving Repr

/-- `needsEnrichment` (lines 571-577). -/
def needsEnrichmentB (row : ProcessedRow) : Bool :=
  decide (row.validationIssues ≠ []) ||
    !truthy (getField row.canonicalData "company_name") ||
    !truthy (getField row.canonicalData "website") ||
    !truthy (getField row.canonicalData "country") ||
    !truthy (getField row.canonicalData "city")

/-- The canonical fields present in the active schema (lines 535-539). -/
def mappedFieldsOf (mappings : List ColumnMapping) : List String :=
  (mappings.filter (fun m => decide (m.canonicalField ≠ "UNMAPPED"))).map
    (fun m => m.canonicalField)

/-- The prepend step for pre-resolution changes (lines 785-793): scope
them to the mapped fields, and `unshift` those whose field is not already
present in the result list (the set of existing fields is computed once,
before the loop). -/
def resultsAfterPre (mapped : List String)
    (preResolveChanges tryResults : List FieldChange) : List FieldChange :=
  let preResolveFiltered :=
    preResolveChanges.filter (fun c => decide (c.field ∈ mapped))
  let existingFields := tryResults.map (fun r => r.field)
  let newOnes := preResolveFiltered.filter
    (fun c => decide (c.field ∉ existingFields))
  newOnes.reverse ++ tryResults

/-- The entity cache key computed from the (pre-resolved) canonical data
(lines 666-668): `normalizeCompanyKey(companyName || '', country ||
undefined)`. -/
def rowCacheKeyOf (data1 : CanonData) : String :=
  normalizeCompanyKey ((getField data1 "company_name").getD "")
    (if truthy (getField data1 "country") then getField data1 "country"
    else none)

/-- The result of the cache-or-fan-out step given the cache read's value
(lines 678-780): on a hit, the cached change list re-filtered to the
mapped fields; on a miss, the full fan-out. -/
def rowTryOf (env : EnrichEnv) (mapped : List String) (cacheKey : String)
    (row1 : ProcessedRow) (cachedOpt : Option (List FieldChange)) : TryOut :=
  match cachedOpt with
  | some fcs =>
    { results := fcs.filter (fun c => decide (c.field ∈ mapped))
      status := row1.status
      candidates := row1.entityCandidates
      errorMessage := row1.errorMessage
      cachePut := none }
  | none => fanOutTry env mapped cacheKey row1

/-- Processing of one row of the batch (the loop body, lines 555-840):
skip already-ENRICHED rows; keep complete VALIDATED rows VALIDATED with an
empty result list; otherwise pre-resolve the name, consult the entity
cache, fan out on a miss, prepend the pre-resolution changes for fields
not already covered, apply all changes with confidence at least 0.7 to the
canonical record, and set the row status.  An exception from the cache
read or the row save reaches the outer catch, which re-reads the stored
row and marks it ERROR. -/
def processRow (env : EnrichEnv) (mappings : List ColumnMapping)
    (row : ProcessedRow) : RowOutcome :=
  if row.status = .ENRICHED then ⟨row, none⟩
  else if ¬ needsEnrichmentB row ∧ row.status = .VALIDATED then
    match env.save with
    | .error _ =>
      ⟨{ row with status := .ERROR, errorMessage := some unknownErrText }, none⟩
    | .ok _ => ⟨{ row with enrichmentResults := [] }, none⟩
  else
    let mapped := mappedFieldsOf mappings
    let data1 := (preResolution env row).1
    let preResolveChanges := (preResolution env row).2
    let row1 := { row with canonicalData := data1 }
    let cacheKey := rowCacheKeyOf data1
    let cachedData : Except Unit (Option (List FieldChange)) :=
      if cacheKey ≠ "" then env.cacheLookup else .ok none
    match cachedData with
    | .error _ =>
      ⟨{ row with status := .ERROR, errorMessage := some unknownErrText }, none⟩
    | .ok cachedOpt =>
      let t : TryOut := rowTryOf env mapped cacheKey row1 cachedOpt
      let results := resultsAfterPre mapped preResolveChanges t.results
      let dataF := applyChanges data1 results
      let finalStatus :=
        if t.status ≠ .NEEDS_REVIEW ∧ results ≠ [] then RowStatus.ENRICHED
        else t.status
      let outRow : ProcessedRow :=
        { row1 with
            canonicalData := dataF
            enrichmentResults := results
            entityCandidates := t.candidates
            status := finalStatus
            errorMessage := t.errorMessage }
      match env.save with
      | .error _ =>
        ⟨{ row with status := .ERROR, errorMessage := some unknownErrText },
          t.cachePut⟩
      | .ok _ => ⟨outRow, t.cachePut⟩

/-! ## Infrastructure lemmas -/

/-- Look up the (first) entry for a field in a change list. -/
def findField (l : List FieldChange) (f : String) : Option FieldChange :=
  l.find? (fun e => decide (e.field = f))

/-- The merge map's per-field selection step, as seen through `findField`:
keep the already selected change unless the new one has strictly greater
confidence. -/
def pickStep (acc : Option FieldChange) (c : FieldChange) :
    Option FieldChange :=
  match acc with
  | none => some c
  | some a => some (if rlt a.confidence c.confidence then c else a)

/-- The fields of a change list are pairwise distinct. -/
def keysNodup (l : List FieldChange) : Prop :=
  (l.map (fun c => c.field)).Nodup


theorem getField_nil (f : String) : getField [] f = none := rfl

theorem getField_cons (p : String × Option String) (ps : CanonData)
    (f : String) :
    getField (p :: ps) f = if p.1 = f then p.2 else getField ps f := by
  by_cases hp : p.1 = f <;> simp [getField, List.find?, hp]

theorem getField_map_set (d : CanonData) (f : String) (v : String)
    (h : d.any (fun p => decide (p.1 = f)) = true) :
    getField (d.map (fun p => if p.1 = f then (p.1, some v) else p)) f
      = some v := by
  induction d with
  | nil => simp at h
  | cons p ps ih =>
    simp only [List.any_cons, Bool.or_eq_true, decide_eq_true_eq] at h
    by_cases hp : p.1 = f
    · simp [getField_cons, hp]
    · simp only [List.map_cons, if_neg hp]
      rw [getField_cons, if_neg hp]
      exact ih (h.resolve_left hp)

theorem getField_map_set_ne (d : CanonData) (f v f' : String) (h : f' ≠ f) :
    getField (d.map (fun p => if p.1 = f then (p.1, some v) else p)) f'
      = getField d f' := by
  induction d with
  | nil => rfl
  | cons p ps ih =>
    by_cases hp : p.1 = f
    · have hne : ¬ p.1 = f' := fun hc => h (hc ▸ hp ▸ rfl)
      simp only [List.map_cons, if_pos hp]
      rw [getField_cons, getField_cons, if_neg hne, if_neg hne]
      exact ih
    · simp only [List.map_cons, if_neg hp]
      rw [getField_cons, getField_cons]
      by_cases hq : p.1 = f' <;> simp [hq, ih]

theorem getField_append_new (d : CanonData) (f : String)
    (v : Option String)
    (h : d.any (fun p => decide (p.1 = f)) = false) :
    getField (d ++ [(f, v)]) f = v := by
  induction d with
  | nil => simp [getField_cons]
  | cons p ps ih =>
    rw [List.any_cons, Bool.or_eq_false_iff] at h
    rcases h with ⟨hp, hps⟩
    rw [List.cons_append, getField_cons,
      if_neg (by simpa using hp : ¬ p.1 = f)]
    exact ih hps

theorem getField_append_ne (d : CanonData) (f : String) (v : Option String)
    (f' : String) (h : f' ≠ f) :
    getField (d ++ [(f, v)]) f' = getField d f' := by
  induction d with
  | nil =>
    simp only [List.nil_append, getField_cons, getField_nil]
    rw [if_neg (fun hc : f = f' => h hc.symm)]
  | cons p ps ih =>
    rw [List.cons_append, getField_cons, getField_cons]
    by_cases hq : p.1 = f' <;> simp [hq, ih]

theorem getField_setField_self (d : CanonData) (f v : String) :
    getField (setField d f v) f = some v := by
  unfold setField
  split
  · exact getField_map_set d f v (by assumption)
  · exact getField_append_new d f (some v)
      (by rename_i h; exact Bool.not_eq_true _ ▸ eq_false_of_ne_true h)

theorem getField_setField_ne (d : CanonData) (f v f' : String)
    (h : f' ≠ f) :
    getField (setField d f v) f' = getField d f' := by
  unfold setField
  split
  · exact getField_map_set_ne d f v f' h
  · exact getField_append_ne d f (some v) f' h

theorem findField_cons (x : FieldChange) (xs : List FieldChange)
    (f : String) :
    findField (x :: xs) f = if x.field = f then some x else findField xs f := by
  by_cases hx : x.field = f <;> simp [findField, List.find?, hx]

theorem applyChanges_cons (d : CanonData) (c : FieldChange)
    (cs : List FieldChange) :
    applyChanges d (c :: cs) =
      applyChanges
        (if rle writeBackThreshold c.confidence then
          setField d c.field c.proposedValue
        else d) cs := rfl

theorem getField_applyChanges_not_mem (d : CanonData)
    (cs : List FieldChange) (f : String) (h : ∀ c ∈ cs, c.field ≠ f) :
    getField (applyChanges d cs) f = getField d f := by
  induction cs generalizing d with
  | nil => rfl
  | cons x xs ih =>
    rw [applyChanges_cons]
    rw [ih _ (fun c hc => h c (List.mem_cons_of_mem x hc))]
    split
    · exact getField_setField_ne d x.field x.proposedValue f
        (fun hc => h x (List.mem_cons_self x xs) hc.symm)
    · rfl

theorem getField_applyChanges_find (d : CanonData) (cs : List FieldChange)
    (f : String) (c : FieldChange) (hnd : keysNodup cs)
    (hf : findField cs f = some c) :
    getField (applyChanges d cs) f =
      if rle writeBackThreshold c.confidence then some c.proposedValue
      else getField d f := by
  induction cs generalizing d with
  | nil => simp [findField, List.find?] at hf
  | cons x xs ih =>
    rw [keysNodup, List.map_cons, List.nodup_cons] at hnd
    rw [findField_cons] at hf
    by_cases hx : x.field = f
    · rw [if_pos hx] at hf
      injection hf with hxc
      subst hxc
      rw [applyChanges_cons]
      have hxs : ∀ e ∈ xs, e.field ≠ f := by
        intro e he hc
        exact hnd.1 (hx ▸ hc ▸ List.mem_map_of_mem (fun q => q.field) he)
      rw [getField_applyChanges_not_mem _ _ _ hxs]
      split
      · exact hx ▸ getField_setField_self d x.field x.proposedValue
      · rfl
    · rw [if_neg hx] at hf
      rw [applyChanges_cons, ih _ hnd.2 hf]
      split
      · rfl
      · split
        · exact getField_setField_ne d x.field x.proposedValue f
            (fun hc => hx hc.symm)
        · rfl

theorem getField_applyChanges_exists (d : CanonData)
    (cs : List FieldChange) (f : String)
    (h : getField (applyChanges d cs) f ≠ getField d f) :
    ∃ c ∈ cs, c.field = f ∧ rle writeBackThreshold c.confidence = true ∧
      getField (applyChanges d cs) f = some c.proposedValue := by
  induction cs generalizing d with
  | nil => exact absurd rfl h
  | cons x xs ih =>
    rw [applyChanges_cons] at h ⊢
    by_cases heq :
        getField
          (applyChanges
            (if rle writeBackThreshold x.confidence then
              setField d x.field x.proposedValue
            else d) xs) f =
        getField
          (if rle writeBackThreshold x.confidence then
            setField d x.field x.proposedValue
          else d) f
    · rw [heq] at h ⊢
      by_cases hr : rle writeBackThreshold x.confidence = true
      · rw [if_pos hr] at h ⊢
        by_cases hx : x.field = f
        · refine ⟨x, List.mem_cons_self x xs, hx, hr, ?_⟩
          exact hx ▸ getField_setField_self d x.field x.proposedValue
        · exact absurd
            (getField_setField_ne d x.field x.proposedValue f
              (fun hc => hx hc.symm)) h
      · rw [if_neg hr] at h
        exact absurd rfl h
    · rcases ih _ heq with ⟨c, hc, hcf, hcr, hval⟩
      exact ⟨c, List.mem_cons_of_mem x hc, hcf, hcr, hval⟩

theorem findField_map_update (m : List FieldChange) (c : FieldChange)
    (f : String) (hcf : c.field = f)
    (hany : m.any (fun e => decide (e.field = c.field)) = true) :
    findField
      (m.map (fun e =>
        if e.field = c.field then
          (if rlt e.confidence c.confidence then c else e)
        else e)) f = pickStep (findField m f) c := by
  induction m with
  | nil => simp at hany
  | cons x xs ih =>
    simp only [List.any_cons, Bool.or_eq_true, decide_eq_true_eq] at hany
    by_cases hx : x.field = f
    · have hxc : x.field = c.field := hx.trans hcf.symm
      simp only [List.map_cons, if_pos hxc]
      rw [findField_cons, findField_cons, if_pos hx]
      have : (if rlt x.confidence c.confidence then c else x).field = f := by
        split
        · exact hcf
        · exact hx
      rw [if_pos this, pickStep]
    · have hxc : ¬ x.field = c.field := fun hc => hx (hc.trans hcf)
      simp only [List.map_cons, if_neg hxc]
      rw [findField_cons, findField_cons, if_neg hx, if_neg hx]
      exact ih (hany.resolve_left hxc)

theorem findField_map_update_ne (m : List FieldChange) (c : FieldChange)
    (f : String) (hcf : ¬ c.field = f) :
    findField
      (m.map (fun e =>
        if e.field = c.field then
          (if rlt e.confidence c.confidence then c else e)
        else e)) f = findField m f := by
  induction m with
  | nil => rfl
  | cons x xs ih =>
    by_cases hxc : x.field = c.field
    · have hx : ¬ x.field = f := fun hc => hcf (hxc ▸ hc)
      have hux : ¬ (if rlt x.confidence c.confidence then c else x).field = f := by
        split
        · exact hcf
        · exact hx
      simp only [List.map_cons, if_pos hxc]
      rw [findField_cons, findField_cons, if_neg hux, if_neg hx]
      exact ih
    · simp only [List.map_cons, if_neg hxc]
      rw [findField_cons, findField_cons]
      by_cases hx : x.field = f
      · rw [if_pos hx, if_pos hx]
      · rw [if_neg hx, if_neg hx]
        exact ih

theorem findField_insertMerged (m : List FieldChange) (c : FieldChange)
    (f : String) :
    findField (insertMerged m c) f =
      if c.field = f then pickStep (findField m f) c else findField m f := by
  unfold insertMerged
  split
  · rename_i hany
    by_cases hcf : c.field = f
    · rw [if_pos hcf, findField_map_update m c f hcf hany]
    · rw [if_neg hcf, findField_map_update_ne m c f hcf]
  · rename_i hany
    have hnone : findField m c.field = none := by
      rw [findField, List.find?_eq_none]
      intro x hx
      simp only [decide_eq_true_eq]
      intro hc
      exact hany (List.any_eq_true.mpr ⟨x, hx, by simpa using hc⟩)
    by_cases hcf : c.field = f
    · rw [if_pos hcf, findField, List.find?_append]
      have hm : List.find? (fun e => decide (e.field = f)) m = none := by
        rw [← hcf]
        exact hnone
      rw [hm, Option.none_or]
      have hone : List.find? (fun e => decide (e.field = f)) [c] = some c := by
        simp [List.find?, hcf]
      rw [hone]
      rw [show findField m f = none from hm, pickStep]
    · rw [if_neg hcf, findField, List.find?_append]
      have hone : List.find? (fun e => decide (e.field = f)) [c] = none := by
        simp [List.find?, hcf]
      rw [hone, Option.or_none]
      rfl

theorem findField_foldl_insertMerged (l : List FieldChange)
    (m : List FieldChange) (f : String) :
    findField (l.foldl insertMerged m) f =
      (l.filter (fun c => decide (c.field = f))).foldl pickStep
        (findField m f) := by
  induction l generalizing m with
  | nil => rfl
  | cons c cs ih =>
    rw [List.foldl_cons, ih, findField_insertMerged]
    by_cases hcf : c.field = f
    · rw [if_pos hcf, List.filter_cons_of_pos (by simpa using hcf),
        List.foldl_cons]
    · rw [if_neg hcf, List.filter_cons_of_neg (by simpa using hcf)]

theorem mem_insertMerged (m : List FieldChange) (c x : FieldChange)
    (h : x ∈ insertMerged m c) : x ∈ m ∨ x = c := by
  unfold insertMerged at h
  split at h
  · rcases List.mem_map.mp h with ⟨e, he, hx⟩
    by_cases hec : e.field = c.field
    · rw [if_pos hec] at hx
      by_cases hr : rlt e.confidence c.confidence = true
      · rw [if_pos hr] at hx
        exact Or.inr hx.symm
      · rw [if_neg hr] at hx
        exact Or.inl (hx ▸ he)
    · rw [if_neg hec] at hx
      exact Or.inl (hx ▸ he)
  · rcases List.mem_append.mp h with h | h
    · exact Or.inl h
    · exact Or.inr (List.mem_singleton.mp h)

theorem mem_foldl_insertMerged (l : List FieldChange)
    (m : List FieldChange) (x : FieldChange)
    (h : x ∈ l.foldl insertMerged m) : x ∈ m ∨ x ∈ l := by
  induction l generalizing m with
  | nil => exact Or.inl h
  | cons c cs ih =>
    rw [List.foldl_cons] at h
    rcases ih _ h with h' | h'
    · rcases mem_insertMerged m c x h' with h'' | h''
      · exact Or.inl h''
      · exact Or.inr (h'' ▸ List.mem_cons_self c cs)
    · exact Or.inr (List.mem_cons_of_mem c h')

theorem map_field_insertMerged (m : List FieldChange) (c : FieldChange) :
    (insertMerged m c).map (fun e => e.field) =
      if m.any (fun e => decide (e.field = c.field)) then
        m.map (fun e => e.field)
      else m.map (fun e => e.field) ++ [c.field] := by
  unfold insertMerged
  split
  · rw [List.map_map]
    congr 1
    funext e
    simp only [Function.comp]
    by_cases hec : e.field = c.field
    · rw [if_pos hec]
      split
      · exact hec.symm
      · rfl
    · rw [if_neg hec]
  · rw [List.map_append, List.map_cons, List.map_nil]

theorem keysNodup_insertMerged (m : List FieldChange) (c : FieldChange)
    (h : keysNodup m) : keysNodup (insertMerged m c) := by
  rw [keysNodup, map_field_insertMerged]
  split
  · exact h
  · rename_i hany
    rw [List.nodup_append]
    refine ⟨h, List.nodup_singleton _, ?_⟩
    intro a ha hb
    rw [List.mem_singleton] at hb
    rcases List.mem_map.mp ha with ⟨e, he, hef⟩
    exact hany (List.any_eq_true.mpr
      ⟨e, he, by simp [hef, hb]⟩)

theorem keysNodup_foldl_insertMerged (l : List FieldChange)
    (m : List FieldChange) (h : keysNodup m) :
    keysNodup (l.foldl insertMerged m) := by
  induction l generalizing m with
  | nil => exact h
  | cons c cs ih => exact ih _ (keysNodup_insertMerged m c h)

theorem mergeFieldChanges_eq_foldl (d : CanonData)
    (sets : List (List FieldChange)) :
    mergeFieldChanges d sets =
      ((sets.map (fun s => filterNoOpChanges s d)).flatten).foldl
        insertMerged [] := by
  rw [mergeFieldChanges, List.foldl_flatten, List.foldl_map]

theorem findField_mergeFieldChanges (d : CanonData)
    (sets : List (List FieldChange)) (f : String) :
    findField (mergeFieldChanges d sets) f =
      (((sets.map (fun s => filterNoOpChanges s d)).flatten).filter
        (fun c => decide (c.field = f))).foldl pickStep none := by
  rw [mergeFieldChanges_eq_foldl, findField_foldl_insertMerged]
  rfl

theorem mem_mergeFieldChanges (d : CanonData)
    (sets : List (List FieldChange)) (c : FieldChange)
    (h : c ∈ mergeFieldChanges d sets) :
    ∃ s ∈ sets, c ∈ filterNoOpChanges s d := by
  rw [mergeFieldChanges_eq_foldl] at h
  rcases mem_foldl_insertMerged _ _ _ h with h' | h'
  · simp at h'
  · rcases List.mem_flatten.mp h' with ⟨fs, hfs, hc⟩
    rcases List.mem_map.mp hfs with ⟨s, hs, hfil⟩
    exact ⟨s, hs, hfil ▸ hc⟩

theorem keysNodup_mergeFieldChanges (d : CanonData)
    (sets : List (List FieldChange)) :
    keysNodup (mergeFieldChanges d sets) := by
  rw [mergeFieldChanges_eq_foldl]
  exact keysNodup_foldl_insertMerged _ [] (by simp [keysNodup])

theorem mem_filterNoOpChanges (s : List FieldChange) (d : CanonData)
    (c : FieldChange) :
    c ∈ filterNoOpChanges s d ↔ c ∈ s ∧ keepChange d c = true := by
  rw [filterNoOpChanges, List.mem_filter]

theorem rle_eq_not_rlt (a b : Rat) : rle a b = !rlt b a := by
  rw [rle, rlt, ← decide_not, decide_eq_decide]
  exact Int.not_lt.symm

theorem keysNodup_filter (l : List FieldChange) (p : FieldChange → Bool)
    (h : keysNodup l) : keysNodup (l.filter p) := by
  rw [keysNodup] at h ⊢
  exact ((List.filter_sublist l).map (fun c => c.field)).nodup h

theorem findField_of_mem_nodup (l : List FieldChange) (c : FieldChange)
    (h1 : keysNodup l) (h2 : c ∈ l) : findField l c.field = some c := by
  induction l with
  | nil => exact absurd h2 (List.not_mem_nil c)
  | cons x xs ih =>
    rw [keysNodup, List.map_cons, List.nodup_cons] at h1
    rw [findField_cons]
    rcases List.mem_cons.mp h2 with h2 | h2
    · rw [if_pos (h2 ▸ rfl)]
      exact congrArg some h2.symm
    · have hx : ¬ x.field = c.field := fun hc =>
        h1.1 (hc ▸ List.mem_map_of_mem (fun q => q.field) h2)
      rw [if_neg hx]
      exact ih h1.2 h2

theorem mem_resultsAfterPre (mapped : List String)
    (pre t : List FieldChange) (c : FieldChange)
    (h : c ∈ resultsAfterPre mapped pre t) :
    c ∈ t ∨ (c ∈ pre ∧ c.field ∈ mapped ∧
      c.field ∉ t.map (fun r => r.field)) := by
  unfold resultsAfterPre at h
  rcases List.mem_append.mp h with h | h
  · rw [List.mem_reverse, List.mem_filter, List.mem_filter] at h
    exact Or.inr ⟨h.1.1, by simpa using h.1.2, by simpa using h.2⟩
  · exact Or.inl h

theorem keysNodup_resultsAfterPre (mapped : List String)
    (pre t : List FieldChange) (h1 : keysNodup pre) (h2 : keysNodup t) :
    keysNodup (resultsAfterPre mapped pre t) := by
  unfold resultsAfterPre
  rw [keysNodup, List.map_append, List.nodup_append]
  refine ⟨?_, h2, ?_⟩
  · rw [List.map_reverse, List.nodup_reverse]
    exact keysNodup_filter _ _ (keysNodup_filter _ _ h1)
  · intro a ha hb
    rw [List.map_reverse, List.mem_reverse] at ha
    rcases List.mem_map.mp ha with ⟨e, he, hef⟩
    rw [List.mem_filter] at he
    have : e.field ∉ t.map (fun r => r.field) := by simpa using he.2
    exact this (hef ▸ hb)

theorem keepChange_false_of_orig (d : CanonData) (c : FieldChange)
    (h1 : normOpt c.originalValue ≠ "")
    (h2 : normStr c.proposedValue = normOpt c.originalValue) :
    keepChange d c = false := by
  simp only [keepChange]
  split
  · rfl
  · rw [if_pos ⟨h1, h2⟩]

theorem string_ne_empty_of_data (s : String) (h : s.data ≠ []) : s ≠ "" := by
  intro hc
  exact h (hc ▸ rfl)

theorem vatPrefixSplit_nil : vatPrefixSplit [] = none := rfl

theorem parseVatId_isSome_normStr_ne (vid : String)
    (h : (parseVatId vid).isSome) : normStr vid ≠ "" := by
  by_cases hv : vid = ""
  · rw [parseVatId, if_pos hv] at h
    exact absurd h (by simp)
  · have hl : (jsToUpper (jsTrim vid)).toList ≠ [] := by
      intro hc
      rw [parseVatId, if_neg hv] at h
      simp only [hc, vatPrefixSplit_nil] at h
      exact absurd h (by simp)
    have htrim : (jsTrim vid).data ≠ [] := by
      intro hc
      apply hl
      show (jsToUpper (jsTrim vid)).data = []
      rw [jsToUpper]
      show ((jsTrim vid).toList.map Char.toUpper) = []
      rw [show (jsTrim vid).toList = (jsTrim vid).data from rfl, hc]
      rfl
    apply string_ne_empty_of_data
    show ((jsTrim vid).toList.map Char.toLower) ≠ []
    rw [show (jsTrim vid).toList = (jsTrim vid).data from rfl]
    simpa using htrim

theorem validateVat_some_parse (vid : String) (fetch : Except Unit ViesRaw)
    (r : ViesResult) (h : validateVat vid fetch = some r) :
    (parseVatId vid).isSome := by
  unfold validateVat at h
  rcases hp : parseVatId vid with _ | p
  · rw [hp] at h
    exact absurd h (by simp)
  · rfl

theorem eq_of_mem_ite_singleton (b : Prop) [Decidable b]
    (x c : FieldChange) (h : c ∈ (if b then [x] else [])) : c = x := by
  by_cases hb : b
  · rw [if_pos hb] at h
    exact List.mem_singleton.mp h
  · rw [if_neg hb] at h
    exact absurd h (List.not_mem_nil c)

theorem enrichFromVies_verified_shape (now : String) (row : ProcessedRow)
    (fetch : Except Unit ViesRaw) (c : FieldChange)
    (hm : c ∈ enrichFromVies now row fetch)
    (ha : c.action = ChangeAction.VERIFIED) :
    ∃ vid, viesVatCandidate row.canonicalData = some vid ∧
      (parseVatId vid).isSome ∧ c.originalValue = some vid ∧
      c.proposedValue = vid := by
  rcases hcand : viesVatCandidate row.canonicalData with _ | vid
  · simp only [enrichFromVies, hcand] at hm
    exact absurd hm (List.not_mem_nil c)
  · rcases hval : validateVat vid fetch with _ | vr
    · simp only [enrichFromVies, hcand, hval] at hm
      exact absurd hm (List.not_mem_nil c)
    · simp only [enrichFromVies, hcand, hval] at hm
      rcases List.mem_append.mp hm with hm1 | hmA
      · rcases List.mem_append.mp hm1 with hm2 | hmC
        · rcases List.mem_append.mp hm2 with hmI | hmN
          · have hc := eq_of_mem_ite_singleton _ _ _ hmI
            subst hc
            exact ⟨vid, rfl, validateVat_some_parse vid fetch vr hval,
              rfl, rfl⟩
          · exfalso
            rcases hn : vr.name with _ | n
            · simp only [hn] at hmN
              exact absurd hmN (List.not_mem_nil c)
            · simp only [hn] at hmN
              have hc := eq_of_mem_ite_singleton _ _ _ hmN
              subst hc
              simp at ha
        · exfalso
          have hc := eq_of_mem_ite_singleton _ _ _ hmC
          subst hc
          simp at ha
      · exfalso
        rcases haddr : vr.address with _ | a
        · simp only [haddr] at hmA
          exact absurd hmA (List.not_mem_nil c)
        · simp only [haddr] at hmA
          by_cases hane : a ≠ ""
          · rw [if_pos hane] at hmA
            rcases List.mem_append.mp hmA with hmA1 | hmP
            · rcases List.mem_append.mp hmA1 with hmS | hmCty
              · have hc := eq_of_mem_ite_singleton _ _ _ hmS
                subst hc
                simp at ha
              · have hc := eq_of_mem_ite_singleton _ _ _ hmCty
                subst hc
                simp at ha
            · have hc := eq_of_mem_ite_singleton _ _ _ hmP
              subst hc
              simp at ha
          · rw [if_neg hane] at hmA
            exact absurd hmA (List.not_mem_nil c)

/-- VIES proposal for the C3 scenario: the VAT registry proposes a company
name with confidence 0.95. -/
def viesPropC3 : FieldChange :=
  { field := "company_name"
    originalValue := none
    proposedValue := "Acme GmbH"
    confidence := mkRat 95 100
    reasoning := "Company name from EU VIES VAT registry"
    sources := []
    action := .ADDED }

/-- Business-registry proposal for the C3 scenario: the registry proposes
a conflicting company name with confidence 0.90. -/
def registryPropC3 : FieldChange :=
  { field := "company_name"
    originalValue := none
    proposedValue := "ACME Gesellschaft mbH"
    confidence := mkRat 90 100
    reasoning := "Company name from registry"
    sources := []
    action := .ADDED }

/-- C3: when several sources propose a change for the same field, the
merge keeps the proposal already selected unless a later one has strictly
greater confidence, with the change sets presented in the fixed order VAT
registry (VIES), business registry, sibling-row fill, language model: for
every field, the selected change is the fold of `pickStep` (keep the
current selection unless the next candidate's confidence is strictly
greater) over the no-op-filtered changes of the four sets in that order.
In particular, for conflicting proposals on one field from the VAT
registry at confidence 0.95 and the business registry at confidence 0.90,
the merged result for that field is exactly the VAT registry's
proposal. -/
theorem merge_keeps_selected_unless_strictly_greater :
    (∀ (d : CanonData) (vies registry crossRow ai : List FieldChange)
      (f : String),
      findField (mergeFieldChanges d [vies, registry, crossRow, ai]) f =
        ((filterNoOpChanges vies d ++ filterNoOpChanges registry d ++
          filterNoOpChanges crossRow d ++ filterNoOpChanges ai d).filter
          (fun c => decide (c.field = f))).foldl pickStep none) ∧
    mergeFieldChanges [] [[viesPropC3], [registryPropC3], [], []] =
      [viesPropC3] ∧
    findField (mergeFieldChanges [] [[viesPropC3], [registryPropC3], [], []])
      "company_name" = some viesPropC3 := by
  refine ⟨?_, by decide, by decide⟩
  intro d vies registry crossRow ai f
  rw [findField_mergeFieldChanges]
  congr 2
  simp [List.flatten]

/-- C10: when a row's VAT id is reported invalid by the VAT registry, the
VERIFIED change the VIES adapter produces to flag the field (proposed
value equal to the original VAT id) is always removed by the no-op filter
(its proposed value normalizes to its own non-blank recorded original
value), so no VERIFIED change from the VIES adapter ever survives into a
merged enrichment result list: a VERIFIED change in the merge output can
only originate from one of the other change sets. -/
theorem invalid_vat_verified_change_never_merged :
    (∀ (now : String) (row : ProcessedRow) (fetch : Except Unit ViesRaw)
      (d : CanonData) (c : FieldChange),
      c ∈ filterNoOpChanges (enrichFromVies now row fetch) d →
      ¬ c.action = ChangeAction.VERIFIED) ∧
    (∀ (now : String) (row : ProcessedRow) (fetch : Except Unit ViesRaw)
      (d : CanonData) (sets : List (List FieldChange)) (c : FieldChange),
      c ∈ mergeFieldChanges d (enrichFromVies now row fetch :: sets) →
      c.action = ChangeAction.VERIFIED →
      ∃ s ∈ sets, c ∈ filterNoOpChanges s d) := by
  have conj1 : ∀ (now : String) (row : ProcessedRow)
      (fetch : Except Unit ViesRaw) (d : CanonData) (c : FieldChange),
      c ∈ filterNoOpChanges (enrichFromVies now row fetch) d →
      ¬ c.action = ChangeAction.VERIFIED := by
    intro now row fetch d c h hver
    rcases (mem_filterNoOpChanges _ _ _).mp h with ⟨hmem, hkeep⟩
    rcases enrichFromVies_verified_shape now row fetch c hmem hver with
      ⟨vid, _, hparse, horig, hprop⟩
    have hfalse : keepChange d c = false := by
      apply keepChange_false_of_orig
      · rw [horig]
        exact parseVatId_isSome_normStr_ne vid hparse
      · rw [horig, hprop]
        rfl
    rw [hkeep] at hfalse
    exact absurd hfalse (by simp)
  refine ⟨conj1, ?_⟩
  intro now row fetch d sets c hmerge hver
  rcases mem_mergeFieldChanges _ _ _ hmerge with ⟨s, hs, hsf⟩
  rcases List.mem_cons.mp hs with hs | hs
  · exact absurd hver (conj1 now row fetch d c (hs ▸ hsf))
  · exact ⟨s, hs, hsf⟩

/-- Row fixture for the C10 witness: an invalid EU VAT id and a present
company name. -/
def rowC10 : ProcessedRow :=
  { rowIndex := 0
    canonicalData := [("vat_id", some "DE123456789"),
      ("company_name", some "Acme")]
    validationIssues := []
    enrichmentResults := []
    entityCandidates := []
    status := .VALIDATED
    errorMessage := none }

/-- VIES response fixture for the C10 witness: the VAT id is invalid. -/
def fetchC10 : Except Unit ViesRaw :=
  .ok { isValid := false, countryCode := "DE", vatNumber := "123456789",
        name := none, address := none, requestDate := "2024-01-01" }

/-- A VERIFIED change from another source (the AI set) for the C10
witness. -/
def aiVerC10 : FieldChange :=
  { field := "registration_id"
    originalValue := none
    proposedValue := "HRB 123"
    confidence := mkRat 9 10
    reasoning := "r"
    sources := []
    action := .VERIFIED }

/-- The country change the VIES adapter produces for `rowC10`. -/
def countryChgC10 : FieldChange :=
  { field := "country"
    originalValue := none
    proposedValue := "DE"
    confidence := mkRat 98 100
    reasoning := "Country derived from VAT registration in VIES"
    sources :=
      [{ url := viesUrl
         type := .PUBLIC_DATABASE
         retrievedAt := "t"
         snippet := some "VIES validation: Invalid VAT DE123456789" }]
    action := .ADDED }

/-- Witness for C10 at a concrete invalid-VAT row: the surviving VIES
change is not VERIFIED, and the only VERIFIED change in the merge output
comes from the other source set. -/
theorem invalid_vat_verified_change_never_merged_witness :
    (¬ countryChgC10.action = ChangeAction.VERIFIED) ∧
    ∃ s ∈ [[aiVerC10]],
      aiVerC10 ∈ filterNoOpChanges s rowC10.canonicalData :=
  ⟨invalid_vat_verified_change_never_merged.1 "t" rowC10 fetchC10
      rowC10.canonicalData countryChgC10 (by decide),
    invalid_vat_verified_change_never_merged.2 "t" rowC10 fetchC10
      rowC10.canonicalData [[aiVerC10]] aiVerC10 (by decide) rfl⟩

/-- The cache read as `processRow` performs it (skipped on a falsy key). -/
def rowCachedOf (env : EnrichEnv) (row : ProcessedRow) :
    Except Unit (Option (List FieldChange)) :=
  if rowCacheKeyOf (preResolution env row).1 ≠ "" then env.cacheLookup
  else .ok none

theorem processRow_enriched_skip (env : EnrichEnv)
    (mappings : List ColumnMapping) (row : ProcessedRow)
    (h : row.status = .ENRICHED) :
    processRow env mappings row = ⟨row, none⟩ := by
  rw [processRow, if_pos h]

theorem processRow_complete_skip (env : EnrichEnv)
    (mappings : List ColumnMapping) (row : ProcessedRow)
    (h1 : ¬ row.status = .ENRICHED)
    (h2 : ¬ needsEnrichmentB row = true ∧ row.status = .VALIDATED)
    (h4 : env.save = .ok ()) :
    processRow env mappings row = ⟨{ row with enrichmentResults := [] }, none⟩ := by
  rw [processRow, if_neg h1, if_pos h2, h4]

theorem processRow_complete_skip_save_error (env : EnrichEnv)
    (mappings : List ColumnMapping) (row : ProcessedRow)
    (h1 : ¬ row.status = .ENRICHED)
    (h2 : ¬ needsEnrichmentB row = true ∧ row.status = .VALIDATED)
    (h4 : env.save = .error ()) :
    processRow env mappings row =
      ⟨{ row with status := .ERROR, errorMessage := some unknownErrText },
        none⟩ := by
  rw [processRow, if_neg h1, if_pos h2, h4]

theorem processRow_cache_error (env : EnrichEnv)
    (mappings : List ColumnMapping) (row : ProcessedRow)
    (h1 : ¬ row.status = .ENRICHED)
    (h2 : ¬ (¬ needsEnrichmentB row = true ∧ row.status = .VALIDATED))
    (h3 : rowCachedOf env row = .error ()) :
    processRow env mappings row =
      ⟨{ row with status := .ERROR, errorMessage := some unknownErrText },
        none⟩ := by
  rw [processRow, if_neg h1, if_neg h2]
  rw [rowCachedOf] at h3
  simp only [h3]

theorem processRow_main_save_error (env : EnrichEnv)
    (mappings : List ColumnMapping) (row : ProcessedRow)
    (cachedOpt : Option (List FieldChange))
    (h1 : ¬ row.status = .ENRICHED)
    (h2 : ¬ (¬ needsEnrichmentB row = true ∧ row.status = .VALIDATED))
    (h3 : rowCachedOf env row = .ok cachedOpt)
    (h4 : env.save = .error ()) :
    processRow env mappings row =
      ⟨{ row with status := .ERROR, errorMessage := some unknownErrText },
        (rowTryOf env (mappedFieldsOf mappings)
          (rowCacheKeyOf (preResolution env row).1)
          { row with canonicalData := (preResolution env row).1 }
          cachedOpt).cachePut⟩ := by
  rw [processRow, if_neg h1, if_neg h2]
  rw [rowCachedOf] at h3
  simp only [h3, h4]

theorem processRow_main_eq (env : EnrichEnv)
    (mappings : List ColumnMapping) (row : ProcessedRow)
    (cachedOpt : Option (List FieldChange))
    (h1 : ¬ row.status = .ENRICHED)
    (h2 : ¬ (¬ needsEnrichmentB row = true ∧ row.status = .VALIDATED))
    (h3 : rowCachedOf env row = .ok cachedOpt)
    (h4 : env.save = .ok ()) :
    processRow env mappings row =
      ⟨{ row with
          canonicalData := applyChanges (preResolution env row).1
            (resultsAfterPre (mappedFieldsOf mappings)
              (preResolution env row).2
              (rowTryOf env (mappedFieldsOf mappings)
                (rowCacheKeyOf (preResolution env row).1)
                { row with canonicalData := (preResolution env row).1 }
                cachedOpt).results)
          enrichmentResults := resultsAfterPre (mappedFieldsOf mappings)
            (preResolution env row).2
            (rowTryOf env (mappedFieldsOf mappings)
              (rowCacheKeyOf (preResolution env row).1)
              { row with canonicalData := (preResolution env row).1 }
              cachedOpt).results
          entityCandidates := (rowTryOf env (mappedFieldsOf mappings)
            (rowCacheKeyOf (preResolution env row).1)
            { row with canonicalData := (preResolution env row).1 }
            cachedOpt).candidates
          status :=
            if (rowTryOf env (mappedFieldsOf mappings)
                  (rowCacheKeyOf (preResolution env row).1)
                  { row with canonicalData := (preResolution env row).1 }
                  cachedOpt).status ≠ .NEEDS_REVIEW ∧
                resultsAfterPre (mappedFieldsOf mappings)
                  (preResolution env row).2
                  (rowTryOf env (mappedFieldsOf mappings)
                    (rowCacheKeyOf (preResolution env row).1)
                    { row with canonicalData := (preResolution env row).1 }
                    cachedOpt).results ≠ [] then RowStatus.ENRICHED
            else (rowTryOf env (mappedFieldsOf mappings)
              (rowCacheKeyOf (preResolution env row).1)
              { row with canonicalData := (preResolution env row).1 }
              cachedOpt).status
          errorMessage := (rowTryOf env (mappedFieldsOf mappings)
            (rowCacheKeyOf (preResolution env row).1)
            { row with canonicalData := (preResolution env row).1 }
            cachedOpt).errorMessage },
        (rowTryOf env (mappedFieldsOf mappings)
          (rowCacheKeyOf (preResolution env row).1)
          { row with canonicalData := (preResolution env row).1 }
          cachedOpt).cachePut⟩ := by
  rw [processRow, if_neg h1, if_neg h2]
  rw [rowCachedOf] at h3
  simp only [h3, h4]

theorem fanOutTry_results_shape (env : EnrichEnv) (mapped : List String)
    (cacheKey : String) (row1 : ProcessedRow) :
    (fanOutTry env mapped cacheKey row1).results = [] ∨
    ∃ crossRowChanges,
      (fanOutTry env mapped cacheKey row1).results =
        (mergeFieldChanges row1.canonicalData
          [enrichFromVies env.now row1 env.viesFetch,
           enrichFromRegistries env.now row1 env.registryResults,
           crossRowChanges,
           (aiStep env.ai row1.entityCandidates).1]).filter
          (fun c => decide (c.field ∈ mapped)) := by
  rcases hcr : enrichFromCrossRowConsistency env.now env.jobRows row1 with
    e | cross
  · simp only [fanOutTry, hcr]
    exact Or.inl (by trivial)
  · refine Or.inr ⟨cross, ?_⟩
    simp only [fanOutTry, hcr]
    rcases hai : aiStep env.ai row1.entityCandidates with ⟨ais, cands, review⟩
    simp only [hai]
    split
    · rcases hw : env.cacheWrite with e | u <;> simp only [hw]
    · rfl

theorem fanOutTry_status_shape (env : EnrichEnv) (mapped : List String)
    (cacheKey : String) (row1 : ProcessedRow) :
    (fanOutTry env mapped cacheKey row1).status = .NEEDS_REVIEW ∨
    (fanOutTry env mapped cacheKey row1).status = row1.status := by
  rcases hcr : enrichFromCrossRowConsistency env.now env.jobRows row1 with
    e | cross
  · simp only [fanOutTry, hcr]
    exact Or.inl (by trivial)
  · simp only [fanOutTry, hcr]
    rcases hai : aiStep env.ai row1.entityCandidates with ⟨ais, cands, review⟩
    simp only [hai]
    by_cases hrev : review = true
    · subst hrev
      split
      · rcases hw : env.cacheWrite with e | u <;> simp only [hw]
        · exact Or.inl (by trivial)
        · exact Or.inl (by trivial)
      · exact Or.inl (by trivial)
    · have hrev2 : review = false := by
        rcases review with _ | _
        · rfl
        · exact absurd rfl hrev
      subst hrev2
      split
      · rcases hw : env.cacheWrite with e | u <;> simp only [hw]
        · exact Or.inl (by trivial)
        · exact Or.inr (by trivial)
      · exact Or.inr (by trivial)

theorem rowTryOf_results_mapped (env : EnrichEnv) (mapped : List String)
    (cacheKey : String) (row1 : ProcessedRow)
    (cachedOpt : Option (List FieldChange)) (c : FieldChange)
    (h : c ∈ (rowTryOf env mapped cacheKey row1 cachedOpt).results) :
    c.field ∈ mapped := by
  rcases cachedOpt with _ | fcs
  · rcases fanOutTry_results_shape env mapped cacheKey row1 with hs | ⟨cross, hs⟩
    · rw [rowTryOf] at h
      rw [hs] at h
      exact absurd h (List.not_mem_nil c)
    · rw [rowTryOf] at h
      rw [hs] at h
      have := (List.mem_filter.mp h).2
      simpa using this
  · rw [rowTryOf] at h
    have := (List.mem_filter.mp h).2
    simpa using this

theorem rowTryOf_results_nodup (env : EnrichEnv) (mapped : List String)
    (cacheKey : String) (row1 : ProcessedRow)
    (cachedOpt : Option (List FieldChange))
    (hcache : ∀ l, cachedOpt = some l → keysNodup l) :
    keysNodup (rowTryOf env mapped cacheKey row1 cachedOpt).results := by
  rcases cachedOpt with _ | fcs
  · rcases fanOutTry_results_shape env mapped cacheKey row1 with hs | ⟨cross, hs⟩
    · rw [rowTryOf, hs]
      simp [keysNodup]
    · rw [rowTryOf, hs]
      exact keysNodup_filter _ _ (keysNodup_mergeFieldChanges _ _)
  · rw [rowTryOf]
    exact keysNodup_filter _ _ (hcache fcs rfl)

theorem keysNodup_ite {c : Prop} [Decidable c]
    {x y : CanonData × List FieldChange} (hx : keysNodup x.2)
    (hy : keysNodup y.2) : keysNodup (if c then x else y).2 := by
  split
  · exact hx
  · exact hy

theorem map_field_ite_singleton (c : Prop) [Decidable c] (x : FieldChange) :
    List.Sublist (List.map (fun e => e.field) (if c then [x] else []))
      [x.field] := by
  split
  · simp
  · simp

theorem keysNodup_preResolution (env : EnrichEnv) (row : ProcessedRow) :
    keysNodup (preResolution env row).2 := by
  simp only [preResolution]
  apply keysNodup_ite
  · simp [keysNodup]
  apply keysNodup_ite
  · simp [keysNodup]
  apply keysNodup_ite
  · simp [keysNodup]
  rcases hrr : env.regPre with _ | rr <;> simp only [hrr]
  · simp [keysNodup]
  · rw [keysNodup]
    refine List.Sublist.nodup
      (?_ : List.Sublist _ (["company_name"] ++ ["address_line1"] ++
        ["city"] ++ ["country"] ++ ["postal_code"])) (by decide)
    simp only [List.map_append]
    refine List.Sublist.append
      (List.Sublist.append
        (List.Sublist.append (List.Sublist.append ?_ ?_) ?_) ?_) ?_
    · simp only [List.map_cons, List.map_nil]
      exact List.Sublist.refl _
    · exact map_field_ite_singleton _ _
    · exact map_field_ite_singleton _ _
    · exact map_field_ite_singleton _ _
    · exact map_field_ite_singleton _ _

theorem rowTryOf_status_shape (env : EnrichEnv) (mapped : List String)
    (cacheKey : String) (row1 : ProcessedRow)
    (cachedOpt : Option (List FieldChange)) :
    (rowTryOf env mapped cacheKey row1 cachedOpt).status = .NEEDS_REVIEW ∨
    (rowTryOf env mapped cacheKey row1 cachedOpt).status = row1.status := by
  rcases cachedOpt with _ | fcs
  · exact fanOutTry_status_shape env mapped cacheKey row1
  · exact Or.inr rfl

/-- C4: for every canonical field not present in the active column schema,
no Field Change for that field appears in a row's final enrichment result
list, on the cache-hit path, the full fan-out path, and the
pre-resolution prepend alike: every change in the processed row's
enrichment results has a field in the mapped canonical fields.  The
hypothesis `row.enrichmentResults = []` says the row enters the enrichment
stage without leftover results, as rows produced by the validation stage
do. -/
theorem schema_scoping_no_unmapped_fields (env : EnrichEnv)
    (mappings : List ColumnMapping) (row : ProcessedRow)
    (h0 : row.enrichmentResults = []) :
    ∀ c ∈ (processRow env mappings row).row.enrichmentResults,
      c.field ∈ mappedFieldsOf mappings := by
  by_cases h1 : row.status = .ENRICHED
  · rw [processRow_enriched_skip env mappings row h1]
    intro c hc
    rw [h0] at hc
    exact absurd hc (List.not_mem_nil c)
  · by_cases h2 : ¬ needsEnrichmentB row = true ∧ row.status = .VALIDATED
    · rcases hs : env.save with e | u
      · cases e
        rw [processRow_complete_skip_save_error env mappings row h1 h2 hs]
        intro c hc
        simp only [h0] at hc
        exact absurd hc (List.not_mem_nil c)
      · cases u
        rw [processRow_complete_skip env mappings row h1 h2 hs]
        intro c hc
        exact absurd hc (List.not_mem_nil c)
    · rcases hc3 : rowCachedOf env row with e | copt
      · cases e
        rw [processRow_cache_error env mappings row h1 h2 hc3]
        intro c hc
        simp only [h0] at hc
        exact absurd hc (List.not_mem_nil c)
      · rcases hs : env.save with e | u
        · cases e
          rw [processRow_main_save_error env mappings row copt h1 h2 hc3 hs]
          intro c hc
          simp only [h0] at hc
          exact absurd hc (List.not_mem_nil c)
        · cases u
          rw [processRow_main_eq env mappings row copt h1 h2 hc3 hs]
          intro c hc
          rcases mem_resultsAfterPre _ _ _ _ hc with hct | ⟨_, hmap, _⟩
          · exact rowTryOf_results_mapped env (mappedFieldsOf mappings) _ _
              copt c hct
          · exact hmap

/-- C2: every change in a processed row's final enrichment result list
with confidence strictly below the 0.7 write-back threshold leaves the
canonical record's value for its field unchanged by the apply step: the
final canonical value equals the value right before the apply step (the
pre-resolved data).  The change itself is, by hypothesis, a member of the
stored result list (`processRow` saves exactly this list on the row).
The hypothesis on `env.cacheLookup` says any cached change list has
pairwise-distinct fields, which holds for every list this code version
caches because cached lists are merge outputs. -/
theorem subthreshold_change_not_applied (env : EnrichEnv)
    (mappings : List ColumnMapping) (row : ProcessedRow)
    (h0 : row.enrichmentResults = [])
    (hcache : ∀ l, env.cacheLookup = Except.ok (some l) → keysNodup l) :
    ∀ c ∈ (processRow env mappings row).row.enrichmentResults,
      rlt c.confidence writeBackThreshold = true →
      getField (processRow env mappings row).row.canonicalData c.field =
        getField (preResolution env row).1 c.field := by
  by_cases h1 : row.status = .ENRICHED
  · rw [processRow_enriched_skip env mappings row h1]
    intro c hc
    rw [h0] at hc
    exact absurd hc (List.not_mem_nil c)
  · by_cases h2 : ¬ needsEnrichmentB row = true ∧ row.status = .VALIDATED
    · rcases hs : env.save with e | u
      · cases e
        rw [processRow_complete_skip_save_error env mappings row h1 h2 hs]
        intro c hc
        simp only [h0] at hc
        exact absurd hc (List.not_mem_nil c)
      · cases u
        rw [processRow_complete_skip env mappings row h1 h2 hs]
        intro c hc
        exact absurd hc (List.not_mem_nil c)
    · rcases hc3 : rowCachedOf env row with e | copt
      · cases e
        rw [processRow_cache_error env mappings row h1 h2 hc3]
        intro c hc
        simp only [h0] at hc
        exact absurd hc (List.not_mem_nil c)
      · rcases hs : env.save with e | u
        · cases e
          rw [processRow_main_save_error env mappings row copt h1 h2 hc3 hs]
          intro c hc
          simp only [h0] at hc
          exact absurd hc (List.not_mem_nil c)
        · cases u
          have hnodupCached : ∀ l, copt = some l → keysNodup l := by
            intro l hl
            rw [rowCachedOf] at hc3
            split at hc3
            · exact hcache l (hl ▸ hc3)
            · injection hc3 with h
              rw [← h] at hl
              exact absurd hl (by simp)
          rw [processRow_main_eq env mappings row copt h1 h2 hc3 hs]
          intro c hc hconf
          have hnodup : keysNodup
              (resultsAfterPre (mappedFieldsOf mappings)
                (preResolution env row).2
                (rowTryOf env (mappedFieldsOf mappings)
                  (rowCacheKeyOf (preResolution env row).1)
                  { row with canonicalData := (preResolution env row).1 }
                  copt).results) :=
            keysNodup_resultsAfterPre _ _ _
              (keysNodup_preResolution env row)
              (rowTryOf_results_nodup env _ _ _ copt hnodupCached)
          have hfind := findField_of_mem_nodup _ c hnodup hc
          have happly := getField_applyChanges_find
            (preResolution env row).1 _ c.field c hnodup hfind
          have hrle : rle writeBackThreshold c.confidence = false := by
            rw [rle_eq_not_rlt, hconf]
            rfl
          rw [happly, if_neg]
          rw [hrle]
          exact Bool.false_ne_true

/-- C9: for a row actually processed by the enrichment stage (not already
ENRICHED), the outcome status is ENRICHED only if the final enrichment
result list is non-empty; and a VALIDATED row whose processing produced no
changes remains VALIDATED, unless it was marked NEEDS_REVIEW or ERROR. -/
theorem enriched_status_requires_results (env : EnrichEnv)
    (mappings : List ColumnMapping) (row : ProcessedRow)
    (h1 : ¬ row.status = .ENRICHED) :
    ((processRow env mappings row).row.status = .ENRICHED →
      (processRow env mappings row).row.enrichmentResults ≠ []) ∧
    (row.status = .VALIDATED →
      (processRow env mappings row).row.enrichmentResults = [] →
      ((processRow env mappings row).row.status = .VALIDATED ∨
       (processRow env mappings row).row.status = .NEEDS_REVIEW ∨
       (processRow env mappings row).row.status = .ERROR)) := by
  by_cases h2 : ¬ needsEnrichmentB row = true ∧ row.status = .VALIDATED
  · rcases hs : env.save with e | u
    · cases e
      rw [processRow_complete_skip_save_error env mappings row h1 h2 hs]
      exact ⟨fun h => absurd h (by simp), fun _ _ => Or.inr (Or.inr rfl)⟩
    · cases u
      rw [processRow_complete_skip env mappings row h1 h2 hs]
      refine ⟨fun h => absurd h ?_, fun hV _ => Or.inl ?_⟩
      · show ¬ row.status = .ENRICHED
        exact h1
      · show row.status = .VALIDATED
        exact hV
  · rcases hc3 : rowCachedOf env row with e | copt
    · cases e
      rw [processRow_cache_error env mappings row h1 h2 hc3]
      exact ⟨fun h => absurd h (by simp), fun _ _ => Or.inr (Or.inr rfl)⟩
    · rcases hs : env.save with e | u
      · cases e
        rw [processRow_main_save_error env mappings row copt h1 h2 hc3 hs]
        exact ⟨fun h => absurd h (by simp), fun _ _ => Or.inr (Or.inr rfl)⟩
      · cases u
        rw [processRow_main_eq env mappings row copt h1 h2 hc3 hs]
        constructor
        · intro hE
          by_cases hcond :
              (rowTryOf env (mappedFieldsOf mappings)
                (rowCacheKeyOf (preResolution env row).1)
                { row with canonicalData := (preResolution env row).1 }
                copt).status ≠ RowStatus.NEEDS_REVIEW ∧
              resultsAfterPre (mappedFieldsOf mappings)
                (preResolution env row).2
                (rowTryOf env (mappedFieldsOf mappings)
                  (rowCacheKeyOf (preResolution env row).1)
                  { row with canonicalData := (preResolution env row).1 }
                  copt).results ≠ []
          · exact hcond.2
          · exfalso
            have hstat :
                (if (rowTryOf env (mappedFieldsOf mappings)
                      (rowCacheKeyOf (preResolution env row).1)
                      { row with canonicalData := (preResolution env row).1 }
                      copt).status ≠ RowStatus.NEEDS_REVIEW ∧
                    resultsAfterPre (mappedFieldsOf mappings)
                      (preResolution env row).2
                      (rowTryOf env (mappedFieldsOf mappings)
                        (rowCacheKeyOf (preResolution env row).1)
                        { row with canonicalData := (preResolution env row).1 }
                        copt).results ≠ [] then RowStatus.ENRICHED
                  else (rowTryOf env (mappedFieldsOf mappings)
                    (rowCacheKeyOf (preResolution env row).1)
                    { row with canonicalData := (preResolution env row).1 }
                    copt).status) = .ENRICHED := hE
            rw [if_neg hcond] at hstat
            rcases rowTryOf_status_shape env (mappedFieldsOf mappings)
              (rowCacheKeyOf (preResolution env row).1)
              { row with canonicalData := (preResolution env row).1 } copt with
              hnr | hrs
            · rw [hnr] at hstat
              exact absurd hstat (by simp)
            · rw [hrs] at hstat
              exact h1 hstat
        · intro hV hres
          have hcond : ¬ ((rowTryOf env (mappedFieldsOf mappings)
                (rowCacheKeyOf (preResolution env row).1)
                { row with canonicalData := (preResolution env row).1 }
                copt).status ≠ RowStatus.NEEDS_REVIEW ∧
              resultsAfterPre (mappedFieldsOf mappings)
                (preResolution env row).2
                (rowTryOf env (mappedFieldsOf mappings)
                  (rowCacheKeyOf (preResolution env row).1)
                  { row with canonicalData := (preResolution env row).1 }
                  copt).results ≠ []) := fun hcond => hcond.2 hres
          show (if _ then RowStatus.ENRICHED else _) = .VALIDATED ∨ _
          rw [if_neg hcond]
          rcases rowTryOf_status_shape env (mappedFieldsOf mappings)
            (rowCacheKeyOf (preResolution env row).1)
            { row with canonicalData := (preResolution env row).1 } copt with
            hnr | hrs
          · rw [hnr]
            exact Or.inr (Or.inl rfl)
          · rw [hrs]
            exact Or.inl hV

/-- A concrete row entering the enrichment stage: validated, company name
present, website/country/city missing (so `needsEnrichment` is true). -/
def rowW : ProcessedRow :=
  { rowIndex := 0
    canonicalData := [("company_name", some "Acme")]
    validationIssues := []
    enrichmentResults := []
    entityCandidates := []
    status := .VALIDATED
    errorMessage := none }

/-- A schema mapping only the `website` canonical field. -/
def mapW : List ColumnMapping :=
  [{ sourceColumn := "Website"
     canonicalField := "website"
     confidence := mkRat 9 10
     reasoning := none }]

/-- An AI change proposing a website at confidence 0.5 (below the 0.7
write-back threshold). -/
def aiChgW : FieldChange :=
  { field := "website"
    originalValue := none
    proposedValue := "acme.example"
    confidence := mkRat 1 2
    reasoning := "guessed"
    sources := []
    action := .ADDED }

/-- An AI change proposing the unmapped `industry` field at
confidence 0.9. -/
def industryChgW : FieldChange :=
  { field := "industry"
    originalValue := none
    proposedValue := "Retail"
    confidence := mkRat 9 10
    reasoning := "guessed"
    sources := []
    action := .ADDED }

/-- A baseline environment: cache miss, every external fetch failing or
empty, both stores writable. -/
def envFixW : EnrichEnv :=
  { now := "t"
    nowSec := 1000
    viesPreFetch := .error ()
    regPre := none
    cacheLookup := .ok none
    viesFetch := .error ()
    registryResults := []
    jobRows := .ok []
    websiteHits := .error ()
    infoHits := .error ()
    ai := .ok { fieldChanges := [], entityCandidates := [],
                needsManualReview := false, reviewReason := none }
    cacheWrite := .ok ()
    save := .ok () }

/-- The baseline environment with the AI proposing the sub-threshold
website change. -/
def envLowW : EnrichEnv :=
  { envFixW with
      ai := .ok { fieldChanges := [aiChgW], entityCandidates := [],
                  needsManualReview := false, reviewReason := none } }

/-- The baseline environment with the AI proposing both the website change
and a change for the unmapped `industry` field. -/
def envSchemaW : EnrichEnv :=
  { envFixW with
      ai := .ok { fieldChanges := [aiChgW, industryChgW],
                  entityCandidates := [],
                  needsManualReview := false, reviewReason := none } }

theorem subthreshold_change_not_applied_witness :
    rowW.enrichmentResults = [] ∧
    rlt aiChgW.confidence writeBackThreshold = true ∧
    aiChgW ∈ (processRow envLowW mapW rowW).row.enrichmentResults ∧
    getField (processRow envLowW mapW rowW).row.canonicalData aiChgW.field =
      getField (preResolution envLowW rowW).1 aiChgW.field :=
  ⟨by decide, by decide, by decide,
    subthreshold_change_not_applied envLowW mapW rowW (by decide)
      (by intro l hl; simp [envLowW, envFixW] at hl) aiChgW (by decide)
      (by decide)⟩

theorem schema_scoping_no_unmapped_fields_witness :
    rowW.enrichmentResults = [] ∧
    (∀ c ∈ (processRow envSchemaW mapW rowW).row.enrichmentResults,
      c.field ∈ mappedFieldsOf mapW) ∧
    (processRow envSchemaW mapW rowW).row.enrichmentResults = [aiChgW] :=
  ⟨by decide,
    schema_scoping_no_unmapped_fields envSchemaW mapW rowW (by decide),
    by decide⟩

theorem enriched_status_requires_results_witness :
    (¬ rowW.status = RowStatus.ENRICHED) ∧
    (((processRow envLowW mapW rowW).row.status = .ENRICHED →
       (processRow envLowW mapW rowW).row.enrichmentResults ≠ []) ∧
     (rowW.status = .VALIDATED →
       (processRow envLowW mapW rowW).row.enrichmentResults = [] →
       ((processRow envLowW mapW rowW).row.status = .VALIDATED ∨
        (processRow envLowW mapW rowW).row.status = .NEEDS_REVIEW ∨
        (processRow envLowW mapW rowW).row.status = .ERROR))) :=
  ⟨by decide, enriched_status_requires_results envLowW mapW rowW (by decide)⟩

theorem preResolution_of_truthy (env : EnrichEnv) (row : ProcessedRow)
    (h : truthy (getField row.canonicalData "company_name") = true) :
    preResolution env row = (row.canonicalData, []) := by
  simp [preResolution, h]

/-- A row whose `website` field is already non-empty. -/
def rowC1 : ProcessedRow :=
  { rowIndex := 0
    canonicalData := [("company_name", some "Acme"),
                      ("website", some "old.example")]
    validationIssues := []
    enrichmentResults := []
    entityCandidates := []
    status := .VALIDATED
    errorMessage := none }

/-- An AI change overwriting the non-empty `website` field at
confidence 0.9 with action ADDED (not CORRECTED). -/
def aiOverC1 : FieldChange :=
  { field := "website"
    originalValue := some "old.example"
    proposedValue := "new.example"
    confidence := mkRat 9 10
    reasoning := "site moved"
    sources := []
    action := .ADDED }

/-- The baseline environment with the AI proposing `aiOverC1`. -/
def envC1 : EnrichEnv :=
  { envFixW with
      ai := .ok { fieldChanges := [aiOverC1], entityCandidates := [],
                  needsManualReview := false, reviewReason := none } }

/-- C1 counterexample: the claimed invariant fails — `website` is
non-empty (`"old.example"`) on `rowC1`, the only merged change has action
ADDED (not CORRECTED), and the apply step still overwrites the field with
the proposed value, because the code at lines 795-800 checks only
`confidence >= 0.7` and never the action. -/
theorem nonempty_field_overwritten_without_corrected_action :
    truthy (getField rowC1.canonicalData "website") = true ∧
    (processRow envC1 mapW rowC1).row.enrichmentResults = [aiOverC1] ∧
    aiOverC1.action = ChangeAction.ADDED ∧
    getField rowC1.canonicalData "website" = some "old.example" ∧
    getField (processRow envC1 mapW rowC1).row.canonicalData "website" =
      some "new.example" := by
  exact ⟨by decide, by decide, by decide, by decide, by decide⟩

/-- C1 (amended): for a row whose company name is present (so the
pre-resolution step leaves the canonical data untouched), a canonical
field changes under `processRow` only when some stored enrichment result
for that field clears the 0.7 write-back threshold and supplies the new
value — the change's action is never consulted; and separately, no merged
change's proposed value normalizes to the field's non-empty current value
(the no-op filter), so an overwrite of a non-empty field always writes a
genuinely different normalized value. -/
theorem nonempty_overwrite_needs_threshold_not_corrected_action
    (env : EnrichEnv) (mappings : List ColumnMapping) (row : ProcessedRow)
    (htruthy : truthy (getField row.canonicalData "company_name") = true) :
    (∀ f : String,
      getField (processRow env mappings row).row.canonicalData f ≠
        getField row.canonicalData f →
      ∃ c ∈ (processRow env mappings row).row.enrichmentResults,
        c.field = f ∧ rle writeBackThreshold c.confidence = true ∧
        getField (processRow env mappings row).row.canonicalData f =
          some c.proposedValue) ∧
    (∀ (d : CanonData) (sets : List (List FieldChange)) (c : FieldChange),
      c ∈ mergeFieldChanges d sets →
      normOpt (getField d c.field) ≠ "" →
      normStr c.proposedValue ≠ normOpt (getField d c.field)) := by
  constructor
  · intro f hne
    by_cases h1 : row.status = .ENRICHED
    · rw [processRow_enriched_skip env mappings row h1] at hne ⊢
      exact absurd rfl hne
    · by_cases h2 : ¬ needsEnrichmentB row = true ∧ row.status = .VALIDATED
      · rcases hs : env.save with e | u
        · cases e
          rw [processRow_complete_skip_save_error env mappings row h1 h2 hs]
            at hne ⊢
          exact absurd rfl hne
        · cases u
          rw [processRow_complete_skip env mappings row h1 h2 hs] at hne ⊢
          exact absurd rfl hne
      · rcases hc3 : rowCachedOf env row with e | copt
        · cases e
          rw [processRow_cache_error env mappings row h1 h2 hc3] at hne ⊢
          exact absurd rfl hne
        · rcases hs : env.save with e | u
          · cases e
            rw [processRow_main_save_error env mappings row copt h1 h2 hc3 hs]
              at hne ⊢
            exact absurd rfl hne
          · cases u
            rw [processRow_main_eq env mappings row copt h1 h2 hc3 hs]
              at hne ⊢
            have hpre := preResolution_of_truthy env row htruthy
            rw [hpre] at hne ⊢
            exact getField_applyChanges_exists _ _ f hne
  · intro d sets c hc hcur heq
    rcases mem_mergeFieldChanges d sets c hc with ⟨s, _, hmem⟩
    have hkeep := ((mem_filterNoOpChanges s d c).mp hmem).2
    simp only [keepChange] at hkeep
    rw [if_pos ⟨hcur, heq⟩] at hkeep
    exact absurd hkeep (by simp)

theorem nonempty_overwrite_needs_threshold_not_corrected_action_witness :
    truthy (getField rowC1.canonicalData "company_name") = true ∧
    (∃ c ∈ (processRow envC1 mapW rowC1).row.enrichmentResults,
      c.field = "website" ∧ rle writeBackThreshold c.confidence = true ∧
      getField (processRow envC1 mapW rowC1).row.canonicalData "website" =
        some c.proposedValue) :=
  ⟨by decide,
    (nonempty_overwrite_needs_threshold_not_corrected_action envC1 mapW
      rowC1 (by decide)).1 "website" (by decide)⟩

/-- The baseline environment with the AI proposing only the unmapped
`industry` change. -/
def envC5 : EnrichEnv :=
  { envFixW with
      ai := .ok { fieldChanges := [industryChgW], entityCandidates := [],
                  needsManualReview := false, reviewReason := none } }

/-- C5 (code bug): the schema filter runs before the cache write, so the
orchestrator caches the schema-filtered set, not the merged unfiltered
one.  With a schema mapping only `website`: (i) an AI fan-out proposing
only `industry` yields a non-empty merged set yet no cache write at all
(the filtered set is empty); (ii) a fan-out proposing a `website` change
writes exactly the filtered set under the normalized entity key, the
versioned source tag, and the 7-day TTL. -/
theorem cache_write_stores_filtered_set_despite_nonempty_merge :
    mergeFieldChanges rowW.canonicalData [[], [], [], [industryChgW]] =
      [industryChgW] ∧
    (processRow envC5 mapW rowW).cachePut = none ∧
    (processRow envLowW mapW rowW).cachePut =
      some { normalizedKey := rowCacheKeyOf rowW.canonicalData
             sourceType := cacheSourceType
             data := [aiChgW]
             retrievedAt := "t"
             ttl := 1000 + 7 * 24 * 60 * 60 } := by
  exact ⟨by decide, by decide, by decide⟩

theorem validateVat_error (vid : String) :
    validateVat vid (.error ()) = none := by
  unfold validateVat
  cases h : parseVatId vid <;> simp [h]

theorem enrichFromVies_fetch_error (now : String) (row : ProcessedRow) :
    enrichFromVies now row (.error ()) = [] := by
  unfold enrichFromVies
  cases hv : viesVatCandidate row.canonicalData <;>
    simp [hv, validateVat_error]

theorem crossRow_jobRows_error (now : String) (row : ProcessedRow)
    (h : truthy (getField row.canonicalData "company_name") = true) :
    enrichFromCrossRowConsistency now (.error ()) row = .error () := by
  simp [enrichFromCrossRowConsistency, h]

theorem fanOutTry_jobRows_error (env : EnrichEnv) (mapped : List String)
    (cacheKey : String) (row1 : ProcessedRow)
    (hj : env.jobRows = .error ())
    (ht : truthy (getField row1.canonicalData "company_name") = true) :
    fanOutTry env mapped cacheKey row1 =
      { results := []
        status := .NEEDS_REVIEW
        candidates := row1.entityCandidates
        errorMessage := some reviewMsgText
        cachePut := none } := by
  have hcr : enrichFromCrossRowConsistency env.now env.jobRows row1 =
      .error () := by
    rw [hj]
    exact crossRow_jobRows_error env.now row1 ht
  simp only [fanOutTry, hcr]

/-- The environment of `envLowW` with the sibling-row DynamoDB query
failing. -/
def envC6 : EnrichEnv := { envLowW with jobRows := .error () }

/-- C6 counterexample: a failure inside the sibling-row lookup is not
recovered locally — it aborts the whole fan-out and surfaces to the row.
With the sibling query failing, the row is marked NEEDS_REVIEW with an
error message and every other adapter's output is discarded, while the
identical environment with a healthy sibling query yields an ENRICHED row
carrying the AI change. -/
theorem sibling_lookup_failure_blocks_other_adapters :
    (processRow envC6 mapW rowW).row.status = RowStatus.NEEDS_REVIEW ∧
    (processRow envC6 mapW rowW).row.enrichmentResults = [] ∧
    (processRow envC6 mapW rowW).row.errorMessage = some reviewMsgText ∧
    (processRow envLowW mapW rowW).row.status = RowStatus.ENRICHED ∧
    (processRow envLowW mapW rowW).row.enrichmentResults = [aiChgW] := by
  exact ⟨by decide, by decide, by decide, by decide, by decide⟩

/-- C6 (amended): a failure inside the VAT registry call, the business
registry fetch, a `searchWeb` Tavily call (and hence either web search
query of the adapter), or the language-model call degrades to an empty
result for that adapter and leaves the others and the row status alone;
but the sibling-row lookup is NOT wrapped: when its DynamoDB query fails
on a row with a truthy company name, the fan-out aborts, all adapter
results are discarded, and the row is marked NEEDS_REVIEW with an error
message. -/
theorem single_source_failure_degrades_except_sibling_lookup :
    (∀ (now : String) (row : ProcessedRow),
      enrichFromVies now row (.error ()) = []) ∧
    (∀ companyName : String, searchBrreg companyName (.error ()) = []) ∧
    (∀ query : String, searchWeb query (.error ()) = []) ∧
    (∀ (companyName : String) (country : Option String),
      enrichFromWebSearch companyName country (.error ()) (.error ()) = []) ∧
    (∀ cands : List EntityCandidate,
      aiStep (.error ()) cands = ([], cands, false)) ∧
    (∀ (env : EnrichEnv) (mappings : List ColumnMapping)
      (row : ProcessedRow),
      ¬ row.status = .ENRICHED →
      ¬ (¬ needsEnrichmentB row = true ∧ row.status = .VALIDATED) →
      truthy (getField row.canonicalData "company_name") = true →
      rowCachedOf env row = .ok none →
      env.save = .ok () →
      env.jobRows = .error () →
      (processRow env mappings row).row.status = RowStatus.NEEDS_REVIEW ∧
      (processRow env mappings row).row.enrichmentResults = [] ∧
      (processRow env mappings row).row.errorMessage = some reviewMsgText ∧
      (processRow env mappings row).cachePut = none) := by
  refine ⟨enrichFromVies_fetch_error, fun _ => rfl, fun _ => rfl,
    fun _ _ => rfl, fun _ => rfl, ?_⟩
  intro env mappings row h1 h2 htruthy hc hs hj
  rw [processRow_main_eq env mappings row none h1 h2 hc hs]
  have hpre := preResolution_of_truthy env row htruthy
  have ht1 : truthy (getField
      ({ row with canonicalData := (preResolution env row).1 } :
        ProcessedRow).canonicalData "company_name") = true := by
    show truthy (getField (preResolution env row).1 "company_name") = true
    rw [hpre]
    exact htruthy
  have htry : rowTryOf env (mappedFieldsOf mappings)
      (rowCacheKeyOf (preResolution env row).1)
      { row with canonicalData := (preResolution env row).1 } none =
      { results := []
        status := .NEEDS_REVIEW
        candidates := row.entityCandidates
        errorMessage := some reviewMsgText
        cachePut := none } := by
    show fanOutTry env (mappedFieldsOf mappings)
      (rowCacheKeyOf (preResolution env row).1)
      { row with canonicalData := (preResolution env row).1 } = _
    rw [fanOutTry_jobRows_error env (mappedFieldsOf mappings)
      (rowCacheKeyOf (preResolution env row).1)
      { row with canonicalData := (preResolution env row).1 } hj ht1]
  rw [htry, hpre]
  simp [resultsAfterPre]

theorem single_source_failure_degrades_except_sibling_lookup_witness :
    (processRow envC6 mapW rowW).row.status = RowStatus.NEEDS_REVIEW ∧
    (processRow envC6 mapW rowW).row.enrichmentResults = [] ∧
    (processRow envC6 mapW rowW).row.errorMessage = some reviewMsgText ∧
    (processRow envC6 mapW rowW).cachePut = none :=
  single_source_failure_degrades_except_sibling_lookup.2.2.2.2.2 envC6 mapW
    rowW (by decide) (by decide) (by decide) rfl rfl rfl

/-- The sibling rows the cross-row adapter tabulates over (lines 416-418):
the job's rows with the same normalized company name, minus the current
row itself. -/
def otherRowsOf (rows : List ProcessedRow) (row : ProcessedRow) :
    List ProcessedRow :=
  (getRowsByCompanyName rows
    ((getField row.canonicalData "company_name").getD "")).filter
    (fun r => decide (r.rowIndex ≠ row.rowIndex))

/-- The current row of the sibling-fill scenarios: company name present,
everything else missing. -/
def rowCur7 : ProcessedRow :=
  { rowIndex := 0
    canonicalData := [("company_name", some "Acme Corp")]
    validationIssues := []
    enrichmentResults := []
    entityCandidates := []
    status := .VALIDATED
    errorMessage := none }

/-- A sibling row carrying a registration id (same normalized company
name `acmecorp`). -/
def rowSibR7 : ProcessedRow :=
  { rowIndex := 1
    canonicalData := [("company_name", some "acme-corp"),
                      ("registration_id", some "923609016")]
    validationIssues := []
    enrichmentResults := []
    entityCandidates := []
    status := .VALIDATED
    errorMessage := none }

/-- A sibling row carrying a website (same normalized company name). -/
def rowSibA7 : ProcessedRow :=
  { rowIndex := 1
    canonicalData := [("company_name", some "acme-corp"),
                      ("website", some "acme.example")]
    validationIssues := []
    enrichmentResults := []
    entityCandidates := []
    status := .VALIDATED
    errorMessage := none }

/-- A second sibling row carrying the same website value. -/
def rowSibB7 : ProcessedRow :=
  { rowIndex := 2
    canonicalData := [("company_name", some "ACME CORP."),
                      ("website", some "acme.example")]
    validationIssues := []
    enrichmentResults := []
    entityCandidates := []
    status := .VALIDATED
    errorMessage := none }

/-- The spec's sibling-fill scenario: three rows sharing normalized name
`acmecorp`, two carrying the same website. -/
def rows7 : List ProcessedRow := [rowCur7, rowSibA7, rowSibB7]

/-- C7 counterexample: `registration_id` is not among the fields the
sibling-row adapter checks.  The current row lacks a registration id, its
sibling (same normalized company name) carries one, yet the adapter
returns no change at all — refuting "for every canonical field still
empty on the current row". -/
theorem sibling_fill_never_proposes_registration_id :
    truthy (getField rowCur7.canonicalData "registration_id") = false ∧
    getField rowSibR7.canonicalData "registration_id" = some "923609016" ∧
    "registration_id" ∉ fieldsToCheck ∧
    enrichFromCrossRowConsistency "t" (.ok [rowCur7, rowSibR7]) rowCur7 =
      .ok [] := by
  exact ⟨by decide, by decide, by decide, rfl⟩

/-- The per-field proposal of the cross-row adapter (the `filterMap`
function of lines 425-462, with the `otherRows` sibling set written
through `otherRowsOf`). -/
def crossRowProposal (now : String) (rows : List ProcessedRow)
    (row : ProcessedRow) (f : String) : Option FieldChange :=
  let cd := row.canonicalData
  let companyName := getField cd "company_name"
  let otherRows := otherRowsOf rows row
  if truthy (getField cd f) then none
  else
    match pickBestEntry (tallyField otherRows f) with
    | none => none
    | some (bestValue, count) =>
      let confidence :=
        rmin (mkRat 85 100)
          (radd (mkRat 6 10)
            (rmul (rdivNat count otherRows.length) (mkRat 25 100)))
      let cn := companyName.getD ""
      some
        { field := f
          originalValue := none
          proposedValue := bestValue
          confidence := confidence
          reasoning :=
            s!"Filled from {count} other row(s) for the same company \"{cn}\""
          sources :=
            [{ url := "N/A"
               type := .LLM_KNOWLEDGE
               retrievedAt := now
               snippet :=
                 some s!"Cross-row consistency: value found in {count} sibling row(s)" }]
          action := .ADDED }

theorem crossRow_ok_filterMap (now : String) (rows : List ProcessedRow)
    (row : ProcessedRow)
    (ht : truthy (getField row.canonicalData "company_name") = true)
    (hne : (otherRowsOf rows row).isEmpty = false) :
    enrichFromCrossRowConsistency now (.ok rows) row =
      .ok (fieldsToCheck.filterMap (crossRowProposal now rows row)) := by
  have hcond : ¬ ((List.filter (fun r => decide (r.rowIndex ≠ row.rowIndex))
      (getRowsByCompanyName rows
        ((getField row.canonicalData "company_name").getD ""))).isEmpty =
      true) := by
    simp only [otherRowsOf] at hne
    intro h
    rw [h] at hne
    exact absurd hne (by simp)
  simp only [enrichFromCrossRowConsistency, ht, not_true, Bool.false_eq_true,
    if_false]
  rw [if_neg hcond]
  rfl

/-- C7 (amended): for every canonical field in the adapter's fixed
checked-field list (`fieldsToCheck` — which omits `company_name`,
`address_line2` and `registration_id`) that is still empty on the current
row, when the sibling tabulation over the non-empty sibling set has a
best entry `(v, cnt)`, the adapter proposes `v` as an ADDED change with
confidence `min(0.85, 0.6 + 0.25 * (cnt / siblings))`. -/
theorem sibling_fill_checked_field_proposal (now : String)
    (rows : List ProcessedRow) (row : ProcessedRow) (f v : String)
    (cnt : Nat)
    (ht : truthy (getField row.canonicalData "company_name") = true)
    (hf : f ∈ fieldsToCheck)
    (hempty : truthy (getField row.canonicalData f) = false)
    (hne : (otherRowsOf rows row).isEmpty = false)
    (hbest : pickBestEntry (tallyField (otherRowsOf rows row) f) =
      some (v, cnt)) :
    ∃ l, enrichFromCrossRowConsistency now (.ok rows) row = .ok l ∧
      ∃ c ∈ l, c.field = f ∧ c.proposedValue = v ∧
        c.action = ChangeAction.ADDED ∧
        c.confidence = rmin (mkRat 85 100) (radd (mkRat 6 10)
          (rmul (rdivNat cnt (otherRowsOf rows row).length)
            (mkRat 25 100))) := by
  have hsome : ∃ c, crossRowProposal now rows row f = some c ∧
      c.field = f ∧ c.proposedValue = v ∧ c.action = ChangeAction.ADDED ∧
      c.confidence = rmin (mkRat 85 100) (radd (mkRat 6 10)
        (rmul (rdivNat cnt (otherRowsOf rows row).length)
          (mkRat 25 100))) := by
    simp only [crossRowProposal, hempty, Bool.false_eq_true, if_false,
      hbest]
    exact ⟨_, rfl, rfl, rfl, rfl, rfl⟩
  rcases hsome with ⟨c, hgc, h1, h2, h3, h4⟩
  exact ⟨_, crossRow_ok_filterMap now rows row ht hne,
    c, List.mem_filterMap.mpr ⟨f, hf, hgc⟩, h1, h2, h3, h4⟩

theorem sibling_fill_checked_field_proposal_witness :
    (∃ l, enrichFromCrossRowConsistency "t" (.ok rows7) rowCur7 = .ok l ∧
      ∃ c ∈ l, c.field = "website" ∧ c.proposedValue = "acme.example" ∧
        c.action = ChangeAction.ADDED ∧
        c.confidence = rmin (mkRat 85 100) (radd (mkRat 6 10)
          (rmul (rdivNat 2 (otherRowsOf rows7 rowCur7).length)
            (mkRat 25 100)))) ∧
    rmin (mkRat 85 100) (radd (mkRat 6 10)
      (rmul (rdivNat 2 (otherRowsOf rows7 rowCur7).length)
        (mkRat 25 100))) = mkRat 85 100 :=
  ⟨sibling_fill_checked_field_proposal "t" rows7 rowCur7 "website"
    "acme.example" 2 (by decide) (by decide) (by decide) (by decide)
    (by decide), by decide⟩

theorem keepChange_congr (d1 d2 : CanonData) (c : FieldChange)
    (h : getField d1 c.field = getField d2 c.field) :
    keepChange d1 c = keepChange d2 c := by
  simp only [keepChange, h]

theorem findField_eq_none_field_ne (l : List FieldChange) (f : String)
    (h : findField l f = none) : ∀ e ∈ l, e.field ≠ f := by
  intro e he
  have := List.find?_eq_none.mp h e he
  simpa using this

theorem pickStep_ne_none (acc : Option FieldChange) (c : FieldChange) :
    pickStep acc c ≠ none := by
  cases acc <;> simp [pickStep]

theorem foldl_pickStep_ne_none (l : List FieldChange)
    (acc : Option FieldChange) (hacc : acc ≠ none) :
    l.foldl pickStep acc ≠ none := by
  induction l generalizing acc with
  | nil => exact hacc
  | cons x xs ih => exact ih _ (pickStep_ne_none acc x)

theorem findField_merge_ne_none_of_kept (d : CanonData)
    (sets : List (List FieldChange)) (s : List FieldChange)
    (c : FieldChange) (hs : s ∈ sets) (hc : c ∈ s)
    (hkeep : keepChange d c = true) :
    findField (mergeFieldChanges d sets) c.field ≠ none := by
  rw [findField_mergeFieldChanges]
  have hcf : c ∈ (sets.map (fun s => filterNoOpChanges s d)).flatten :=
    List.mem_flatten.mpr ⟨filterNoOpChanges s d,
      List.mem_map_of_mem _ hs,
      (mem_filterNoOpChanges s d c).mpr ⟨hc, hkeep⟩⟩
  have hmemfil :
      c ∈ ((sets.map (fun s => filterNoOpChanges s d)).flatten).filter
        (fun e => decide (e.field = c.field)) :=
    List.mem_filter.mpr ⟨hcf, by simp⟩
  rcases hl : ((sets.map (fun s => filterNoOpChanges s d)).flatten).filter
      (fun e => decide (e.field = c.field)) with _ | ⟨x, xs⟩
  · rw [hl] at hmemfil
    exact absurd hmemfil (List.not_mem_nil c)
  · rw [hl, List.foldl_cons]
    exact foldl_pickStep_ne_none xs (pickStep none x) (pickStep_ne_none none x)

theorem mergeFieldChanges_nil_of_filter_nil (d : CanonData)
    (sets : List (List FieldChange))
    (h : ∀ s ∈ sets, filterNoOpChanges s d = []) :
    mergeFieldChanges d sets = [] := by
  rw [mergeFieldChanges_eq_foldl]
  have hfl : (sets.map (fun s => filterNoOpChanges s d)).flatten = [] := by
    rw [List.flatten_eq_nil_iff]
    intro l hl
    rcases List.mem_map.mp hl with ⟨s, hs, rfl⟩
    exact h s hs
  rw [hfl]
  rfl

/-- C8 (amended): re-enriching with the same evidence yields an empty
merged set PROVIDED every change of the first run clears the 0.7
write-back threshold, proposes a value that is non-empty after
normalization, and all changes agree per field up to normalization; the
no-op filter then discards every change of the second run.  (Without the
threshold hypothesis the property fails: a sub-threshold change is kept in
the result list but never applied, so it survives the filter again.) -/
theorem second_enrichment_merge_empty (d : CanonData)
    (sets : List (List FieldChange))
    (hth : ∀ s ∈ sets, ∀ c ∈ s, rle writeBackThreshold c.confidence = true)
    (hnz : ∀ s ∈ sets, ∀ c ∈ s, normStr c.proposedValue ≠ "")
    (hag : ∀ s1 ∈ sets, ∀ s2 ∈ sets, ∀ c1 ∈ s1, ∀ c2 ∈ s2,
      c1.field = c2.field →
      normStr c1.proposedValue = normStr c2.proposedValue) :
    mergeFieldChanges (applyChanges d (mergeFieldChanges d sets)) sets =
      [] := by
  apply mergeFieldChanges_nil_of_filter_nil
  intro s hs
  rw [filterNoOpChanges, List.filter_eq_nil_iff]
  intro c hc
  rw [Bool.not_eq_true]
  rcases hff : findField (mergeFieldChanges d sets) c.field with _ | c'
  · have hkc : keepChange d c = false := by
      by_contra hkc'
      rw [Bool.not_eq_false] at hkc'
      exact findField_merge_ne_none_of_kept d sets s c hs hc hkc' hff
    have hgf : getField (applyChanges d (mergeFieldChanges d sets)) c.field
        = getField d c.field :=
      getField_applyChanges_not_mem _ _ _
        (findField_eq_none_field_ne _ _ hff)
    rw [keepChange_congr _ d c hgf]
    exact hkc
  · have hc'mem : c' ∈ mergeFieldChanges d sets :=
      List.mem_of_find?_eq_some hff
    have hc'f : c'.field = c.field := by
      have := List.find?_some hff
      simpa using this
    rcases mem_mergeFieldChanges d sets c' hc'mem with ⟨s', hs', hfil⟩
    have hc's : c' ∈ s' := ((mem_filterNoOpChanges s' d c').mp hfil).1
    have hrth : rle writeBackThreshold c'.confidence = true :=
      hth s' hs' c' hc's
    have hget : getField (applyChanges d (mergeFieldChanges d sets)) c.field
        = some c'.proposedValue := by
      rw [getField_applyChanges_find d _ c.field c'
        (keysNodup_mergeFieldChanges d sets) hff, if_pos hrth]
    have hagree : normStr c.proposedValue = normStr c'.proposedValue :=
      hag s hs s' hs' c hc c' hc's hc'f.symm
    have hne' : normStr c'.proposedValue ≠ "" := hnz s' hs' c' hc's
    have e1 : normOpt (some c'.proposedValue) = normStr c'.proposedValue :=
      rfl
    simp only [keepChange, hget, e1]
    rw [if_pos ⟨hne', hagree⟩]

/-- The canonical record of the idempotence scenarios. -/
def dC8 : CanonData := [("company_name", some "Acme")]

/-- A sub-threshold change (confidence 0.65) for the missing website. -/
def lowC8 : FieldChange :=
  { field := "website"
    originalValue := none
    proposedValue := "w.example"
    confidence := mkRat 65 100
    reasoning := "r"
    sources := []
    action := .ADDED }

/-- An above-threshold change (confidence 0.8) for the missing website. -/
def hiC8 : FieldChange :=
  { field := "website"
    originalValue := none
    proposedValue := "w.example"
    confidence := mkRat 8 10
    reasoning := "r"
    sources := []
    action := .ADDED }

/-- C8 counterexample: with a single source re-supplying the same
sub-threshold change (0.65 < 0.7), the first run keeps the change in the
merged set but never applies it, so the second run's merged set is the
same non-empty set again — the claimed unconditional idempotence fails. -/
theorem second_merge_not_empty_for_subthreshold_change :
    rlt lowC8.confidence writeBackThreshold = true ∧
    mergeFieldChanges dC8 [[lowC8]] = [lowC8] ∧
    applyChanges dC8 (mergeFieldChanges dC8 [[lowC8]]) = dC8 ∧
    mergeFieldChanges
      (applyChanges dC8 (mergeFieldChanges dC8 [[lowC8]])) [[lowC8]] =
      [lowC8] := by
  exact ⟨by decide, by decide, by decide, by decide⟩

theorem second_enrichment_merge_empty_witness :
    mergeFieldChanges
      (applyChanges dC8 (mergeFieldChanges dC8 [[hiC8]])) [[hiC8]] = [] :=
  second_enrichment_merge_empty dC8 [[hiC8]] (by decide) (by decide)
    (by decide)
